import Mathlib

/-!
Shallow embedding of the Aptos indexer fork (default processor, processor
metadata handles, and utility layer) together with proofs about the frozen
claims.  Definitions are transcribed from the Rust sources under `src/`;
parts of the repository that the sources reference but that are not present
under `src/` (the `database` module, the row models in `models/`, and the
external `bigdecimal` crate surface) are modelled from the specification and
carry a doc comment saying so.

Rust panics (`assert!`, `.expect(...)`, `.unwrap()`) are modelled by an
explicit `panicked` outcome; fallible calls return an explicit result type.
-/

/-- Outcome of a Rust computation that can panic: either a value or a panic
with the `expect`/`assert` message. -/
inductive POutcome (α : Type) where
  | ok (a : α)
  | panicked (msg : String)
  deriving DecidableEq, Repr

/-! ## Utility layer: `src/util.rs` and the `bigdecimal` surface -/

/-- Modelled from the spec: the backend stores versions as arbitrary-precision
decimals ("numeric"); every value that the indexer reads back is an integer,
so the decimal is modelled by its integer value.  The `bigdecimal` crate is an
external dependency, not part of `src/`. -/
abbrev BigDecimal := Int

/-- Modelled from the spec: `BigDecimal::from_u64` widens losslessly and is
total on `u64` inputs.  The `u64` domain is `Nat` values below `2^64`. -/
def BigDecimal.from_u64 (val : Nat) : BigDecimal := (val : Int)

/-- Modelled from the spec: `BigDecimal::to_u64` narrows, returning `none`
when the decimal lies outside `[0, 2^64)` (the crate returns `None` for
negative values and for values that overflow `u64`). -/
def BigDecimal.to_u64 (val : BigDecimal) : Option Nat :=
  if 0 ≤ val ∧ val < 2 ^ 64 then some val.toNat else none

/-- `src/src/util.rs` lines 6-8: `u64_to_bigdecimal` wraps `from_u64` in an
`expect`; `from_u64` never fails on a `u64`, so the panic arm is dead but is
kept for fidelity. -/
def u64_to_bigdecimal (val : Nat) : POutcome BigDecimal :=
  POutcome.ok (BigDecimal.from_u64 val)

/-- `src/src/util.rs` lines 10-12: `bigdecimal_to_u64` narrows with
`.expect("Unable to convert big decimal to u64")`, so an out-of-range decimal
panics. -/
def bigdecimal_to_u64 (val : BigDecimal) : POutcome Nat :=
  match BigDecimal.to_u64 val with
  | some v => POutcome.ok v
  | none => POutcome.panicked "Unable to convert big decimal to u64"

/-! ## Chunking: the `database` module (not under `src/`) -/

/-- `MAX_PARAMS_PER_STATEMENT` from the spec: backends cap bind parameters at
65535. -/
def MAX_PARAMS_PER_STATEMENT : Nat := 65535

/-- Helper for `get_chunks`: emits `(begin, end)` index pairs stepping by the
chunk size `cs` until `n` items are covered.  The loop advances `start` by
`cs ≥ 1` each step, so `n` iterations always suffice; the first argument is
that structural fuel. -/
def get_chunks_aux (cs n : Nat) : Nat → Nat → List (Nat × Nat)
  | 0, _ => []
  | fuel + 1, start =>
      if start < n then
        (start, min (start + cs) n) :: get_chunks_aux cs n fuel (start + cs)
      else
        []

/-- Modelled from the spec: `get_chunks(num_items, column_count)` from the
repository's `database` module (not under `src/`) splits `num_items` rows
into index ranges of size `floor(MAX_PARAMS_PER_STATEMENT / column_count)`,
so that no single insert statement exceeds the backend parameter limit. -/
def get_chunks (num_items_to_insert column_count : Nat) : List (Nat × Nat) :=
  get_chunks_aux (max 1 (MAX_PARAMS_PER_STATEMENT / column_count))
    num_items_to_insert num_items_to_insert 0

/-- Modelled from the spec: field count of the `transactions` row model
(version, hash, state_change_hash, event_root_hash, gas_used, success,
vm_status, accumulator_root_hash, inserted_at). -/
def TransactionModel.field_count : Nat := 9

/-- Modelled from the spec: field count of the `user_transactions` row model
(version, parent_signature_type, sender, sequence_number, max_gas_amount,
expiration_timestamp_secs, gas_unit_price, timestamp, inserted_at). -/
def UserTransactionModel.field_count : Nat := 9

/-- Modelled from the spec: field count of the `block_metadata_transactions`
row model (version, id, round, previous_block_votes, proposer, timestamp,
inserted_at). -/
def BlockMetadataTransactionModel.field_count : Nat := 7

/-- Modelled from the spec: field count of the `events` row model
(account_address, creation_number, sequence_number, transaction_version,
type, data, inserted_at). -/
def EventModel.field_count : Nat := 7

/-- Modelled from the spec: field count of the `write_set_changes` row model
(transaction_version, index, hash, type, address, state_key_hash, data,
inserted_at). -/
def WriteSetChangeModel.field_count : Nat := 8

/-- Modelled from the spec: field count of the `processor_statuses` row model
(name, version, success, details, last_updated). -/
def ProcessorStatusModel.field_count : Nat := 5

/-! ## Connection acquisition: `src/src/indexer/postgres_utils.rs` -/

/-- Opaque pooled connection handle; the pool hands out identifiers. -/
abbrev PgPoolConnection := Nat

/-- Process-wide connection metrics: `GOT_CONNECTION` and
`UNABLE_TO_GET_CONNECTION`. -/
structure ConnCounters where
  got_connection : Nat
  unable_to_get_connection : Nat
  deriving DecidableEq, Repr

/-- `src/src/indexer/postgres_utils.rs` lines 8-25 (the same loop appears in
`postgres_processor.rs` lines 130-147 and `postgres_handle.rs` lines 32-50):
loop over `pool.get()` attempts; a failed attempt increments
`UNABLE_TO_GET_CONNECTION` and retries, a successful attempt increments
`GOT_CONNECTION` and returns the connection.  The pool's responses are passed
as an explicit (finite) sequence of attempts; exhausting the sequence with no
success models the loop never returning. -/
def get_pg_conn_from_pool (responses : List (Option PgPoolConnection))
    (c : ConnCounters) : Option (PgPoolConnection × ConnCounters) :=
  match responses with
  | [] => none
  | some conn :: _ =>
      some (conn, { c with got_connection := c.got_connection + 1 })
  | none :: rest =>
      get_pg_conn_from_pool rest
        { c with unable_to_get_connection := c.unable_to_get_connection + 1 }

/-! ## Processor status rows: `models/processor_statuses.rs` (not under
`src/`), queried and written by `postgres_handle.rs` and
`postgres_processor.rs`. -/

/-- Modelled from the spec: the `ProcessorStatusModel` row
(processor-name, version, success, details); primary key `(name, version)`.
The `last_updated` wall-clock column is set to the write time and carries no
information for the claims, so it is omitted from the model. -/
structure ProcessorStatusModel where
  name : String
  version : Nat
  success : Bool
  details : Option String
  deriving DecidableEq, Repr

/-- Modelled from the spec: `ProcessorStatusModel::from_versions(name, start,
end, success, details)` builds one row per version `v` in `start..=end`. -/
def ProcessorStatusModel.from_versions (name : String)
    (start_version end_version : Nat) (success : Bool)
    (details : Option String) : List ProcessorStatusModel :=
  (List.range (end_version + 1 - start_version)).map fun i =>
    { name := name, version := start_version + i, success := success,
      details := details }

/-- The `processor_statuses` table: a list of rows (the backend keeps at most
one row per `(name, version)` key; the upsert below preserves that). -/
abbrev ProcessorStatusTable := List ProcessorStatusModel

/-- One `INSERT ... ON CONFLICT (name, version) DO UPDATE SET success, details,
last_updated` upsert of a single row: a row with the same key is overwritten,
otherwise the row is appended. -/
def upsertProcessorStatus (table : ProcessorStatusTable)
    (r : ProcessorStatusModel) : ProcessorStatusTable :=
  if table.any fun x => x.name = r.name ∧ x.version = r.version then
    table.map fun x =>
      if x.name = r.name ∧ x.version = r.version then r else x
  else
    table ++ [r]

/-- Upsert of a slice of rows, in order. -/
def upsertProcessorStatusRows (table : ProcessorStatusTable)
    (rows : List ProcessorStatusModel) : ProcessorStatusTable :=
  rows.foldl upsertProcessorStatus table

/-- SQL `max` over the `version` column of a list of rows. -/
def maxVersionOf : List Nat → Option Nat
  | [] => none
  | v :: rest =>
      match maxVersionOf rest with
      | none => some v
      | some m => some (Nat.max v m)

/-! ### `PostgresHandle` (`src/src/indexer/postgres_handle.rs`, lines 53-104) -/

/-- `postgres_handle.rs` lines 57-68: select `version` where
`success = false and name = processor_name`; the selected decimals are
narrowed with `bigdecimal_to_u64`, which is exact on versions written from
`u64` (all versions in the table), so the narrowing is applied as identity. -/
def PostgresHandle.get_error_versions (table : ProcessorStatusTable)
    (processor_name : String) : List Nat :=
  ((table.filter fun r => r.success = false ∧ r.name = processor_name).map
    fun r => r.version)

/-- `postgres_handle.rs` lines 72-82: select `max(version)` where
`name = processor_name`. -/
def PostgresHandle.get_max_version (table : ProcessorStatusTable)
    (processor_name : String) : Option Nat :=
  maxVersionOf ((table.filter fun r => r.name = processor_name).map
    fun r => r.version)

/-- `postgres_handle.rs` lines 85-103: chunk the given rows by
`ProcessorStatusModel::field_count` and upsert each chunk with
`ON CONFLICT (name, version) DO UPDATE`. -/
def PostgresHandle.apply_processor_status (table : ProcessorStatusTable)
    (psms : List ProcessorStatusModel) : ProcessorStatusTable :=
  (get_chunks psms.length ProcessorStatusModel.field_count).foldl
    (fun t chunk =>
      upsertProcessorStatusRows t ((psms.drop chunk.1).take (chunk.2 - chunk.1)))
    table

/-! ### `PgProcessorMetadataHandle` (`src/src/indexer/postgres_processor.rs`,
lines 26-76) -/

/-- `postgres_processor.rs` lines 29-40: same query as
`PostgresHandle::get_error_versions`. -/
def PgProcessorMetadataHandle.get_error_versions (table : ProcessorStatusTable)
    (processor_name : String) : List Nat :=
  ((table.filter fun r => r.success = false ∧ r.name = processor_name).map
    fun r => r.version)

/-- `postgres_processor.rs` lines 44-54: same query as
`PostgresHandle::get_max_version`. -/
def PgProcessorMetadataHandle.get_max_version (table : ProcessorStatusTable)
    (processor_name : String) : Option Nat :=
  maxVersionOf ((table.filter fun r => r.name = processor_name).map
    fun r => r.version)

/-- `postgres_processor.rs` lines 57-75: same chunked upsert as
`PostgresHandle::apply_processor_status`. -/
def PgProcessorMetadataHandle.apply_processor_status
    (table : ProcessorStatusTable) (psms : List ProcessorStatusModel) :
    ProcessorStatusTable :=
  (get_chunks psms.length ProcessorStatusModel.field_count).foldl
    (fun t chunk =>
      upsertProcessorStatusRows t ((psms.drop chunk.1).take (chunk.2 - chunk.1)))
    table

/-! ## Row families: `models/transactions.rs`, `models/events.rs`,
`models/write_set_changes.rs` (not under `src/`), modelled from the spec's
data model, and the raw transactions of `aptos_rest_client`. -/

/-- Modelled from the spec: a `transactions` row (§6). -/
structure TransactionModel where
  version : Nat
  hash : String
  state_change_hash : String
  event_root_hash : String
  gas_used : Nat
  success : Bool
  vm_status : String
  accumulator_root_hash : String
  deriving DecidableEq, Repr

/-- Modelled from the spec: a `user_transactions` row (§6). -/
structure UserTransactionModel where
  version : Nat
  parent_signature_type : String
  sender : String
  sequence_number : Nat
  max_gas_amount : Nat
  expiration_timestamp_secs : Nat
  gas_unit_price : Nat
  timestamp : Nat
  deriving DecidableEq, Repr

/-- Modelled from the spec: a `block_metadata_transactions` row (§6). -/
structure BlockMetadataTransactionModel where
  version : Nat
  id : String
  round : Nat
  previous_block_votes : String
  proposer : String
  timestamp : Nat
  deriving DecidableEq, Repr

/-- Modelled from the spec: an `events` row (§6); primary key
`(account_address, creation_number, sequence_number)`. -/
structure EventModel where
  account_address : String
  creation_number : Nat
  sequence_number : Nat
  transaction_version : Nat
  typ : String
  data : String
  deriving DecidableEq, Repr

/-- Modelled from the spec: a `write_set_changes` row (§6); primary key
`(transaction_version, index)`. -/
structure WriteSetChangeModel where
  transaction_version : Nat
  index : Nat
  hash : String
  typ : String
  address : String
  state_key_hash : String
  data : String
  deriving DecidableEq, Repr

/-- An event embedded in a raw transaction (`aptos_rest_client`, external). -/
structure RawEvent where
  account_address : String
  creation_number : Nat
  sequence_number : Nat
  typ : String
  data : String
  deriving DecidableEq, Repr

/-- A write-set change embedded in a raw transaction. -/
structure RawWriteSetChange where
  typ : String
  address : String
  state_key_hash : String
  data : String
  hash : String
  deriving DecidableEq, Repr

/-- Variant-specific payload of a raw user transaction. -/
structure UserTransactionInfo where
  parent_signature_type : String
  sender : String
  sequence_number : Nat
  max_gas_amount : Nat
  expiration_timestamp_secs : Nat
  gas_unit_price : Nat
  timestamp : Nat
  deriving DecidableEq, Repr

/-- Variant-specific payload of a raw block-metadata transaction. -/
structure BlockMetadataInfo where
  id : String
  round : Nat
  previous_block_votes : String
  proposer : String
  timestamp : Nat
  deriving DecidableEq, Repr

/-- The `type` discriminator of a raw transaction. -/
inductive RawTransactionVariant where
  | userTransaction (u : UserTransactionInfo)
  | blockMetadataTransaction (b : BlockMetadataInfo)
  | genesisOrOther
  deriving DecidableEq, Repr

/-- A raw (committed) transaction as retrieved from the upstream endpoint
(`aptos_rest_client::Transaction`, external).  Only committed transactions
reach the processors, so `version` is total. -/
structure RawTransaction where
  version : Nat
  hash : String
  state_change_hash : String
  event_root_hash : String
  gas_used : Nat
  success : Bool
  vm_status : String
  accumulator_root_hash : String
  variant : RawTransactionVariant
  events : List RawEvent
  changes : List RawWriteSetChange
  deriving DecidableEq, Repr

/-- The `transactions` row produced from one raw transaction (always). -/
def TransactionModel.from_raw (t : RawTransaction) : TransactionModel :=
  { version := t.version, hash := t.hash,
    state_change_hash := t.state_change_hash,
    event_root_hash := t.event_root_hash, gas_used := t.gas_used,
    success := t.success, vm_status := t.vm_status,
    accumulator_root_hash := t.accumulator_root_hash }

/-- The `user_transactions` row produced from one raw transaction
(present iff the variant is a user transaction). -/
def UserTransactionModel.from_raw (t : RawTransaction) :
    Option UserTransactionModel :=
  match t.variant with
  | .userTransaction u =>
      some { version := t.version,
             parent_signature_type := u.parent_signature_type,
             sender := u.sender, sequence_number := u.sequence_number,
             max_gas_amount := u.max_gas_amount,
             expiration_timestamp_secs := u.expiration_timestamp_secs,
             gas_unit_price := u.gas_unit_price, timestamp := u.timestamp }
  | _ => none

/-- The `block_metadata_transactions` row produced from one raw transaction
(present iff the variant is a block-metadata transaction). -/
def BlockMetadataTransactionModel.from_raw (t : RawTransaction) :
    Option BlockMetadataTransactionModel :=
  match t.variant with
  | .blockMetadataTransaction b =>
      some { version := t.version, id := b.id, round := b.round,
             previous_block_votes := b.previous_block_votes,
             proposer := b.proposer, timestamp := b.timestamp }
  | _ => none

/-- The `events` rows of one raw transaction, in embedded order. -/
def EventModel.from_raw (t : RawTransaction) : List EventModel :=
  t.events.map fun e =>
    { account_address := e.account_address,
      creation_number := e.creation_number,
      sequence_number := e.sequence_number,
      transaction_version := t.version, typ := e.typ, data := e.data }

/-- The `write_set_changes` rows of one raw transaction, in embedded order,
with a per-version `index` assigned densely from 0. -/
def WriteSetChangeModel.from_raw (t : RawTransaction) :
    List WriteSetChangeModel :=
  t.changes.enum.map fun ic =>
    { transaction_version := t.version, index := ic.1, hash := ic.2.hash,
      typ := ic.2.typ, address := ic.2.address,
      state_key_hash := ic.2.state_key_hash, data := ic.2.data }

/-- Modelled from the spec: `TransactionModel::from_transactions` (§4.3,
`models/transactions.rs` not under `src/`) decomposes a sequence of raw
transactions into the five row families, preserving order. -/
def TransactionModel.from_transactions (ts : List RawTransaction) :
    List TransactionModel × List UserTransactionModel ×
    List BlockMetadataTransactionModel × List EventModel ×
    List WriteSetChangeModel :=
  (ts.map TransactionModel.from_raw,
   ts.filterMap UserTransactionModel.from_raw,
   ts.filterMap BlockMetadataTransactionModel.from_raw,
   (ts.map EventModel.from_raw).flatten,
   (ts.map WriteSetChangeModel.from_raw).flatten)

/-! ## Execution model of the persistence pipeline -/

/-- The complete durable backend state: five row-family tables plus the
`processor_statuses` table. -/
structure DbState where
  transactions : List TransactionModel
  user_transactions : List UserTransactionModel
  block_metadata_transactions : List BlockMetadataTransactionModel
  events : List EventModel
  write_set_changes : List WriteSetChangeModel
  processor_statuses : ProcessorStatusTable
  deriving DecidableEq, Repr

/-- One of the five row families, for trace events. -/
inductive RowFamily where
  | transactions
  | user_transactions
  | block_metadata_transactions
  | events
  | write_set_changes
  deriving DecidableEq, Repr

/-- Observable operations of a pipeline run, in execution order: a
processor-status upsert, or a row-family insert of the row for a version. -/
inductive TraceEv where
  | statusUpsert (name : String) (version : Nat) (success : Bool)
      (details : Option String)
  | rowInsert (fam : RowFamily) (version : Nat)
  deriving DecidableEq, Repr

/-- Execution state threaded through the pipeline: the durable database, the
trace of executed operations, and the index of the next SQL statement (the
error oracle is consulted at that index). -/
structure ExecState where
  db : DbState
  trace : List TraceEv
  stmt : Nat
  deriving DecidableEq, Repr

/-- `INSERT ... ON CONFLICT DO NOTHING` of a slice of rows, in order: a row
whose primary key is already present is skipped, otherwise it is appended. -/
def insertOnConflictDoNothing {α : Type} (sameKey : α → α → Bool)
    (table rows : List α) : List α :=
  rows.foldl (fun t r => if t.any fun x => sameKey x r then t else t ++ [r])
    table

/-- Primary-key test of `transactions` rows (key: version). -/
def TransactionModel.sameKey (x r : TransactionModel) : Bool :=
  decide (x.version = r.version)

/-- Primary-key test of `user_transactions` rows (key: version). -/
def UserTransactionModel.sameKey (x r : UserTransactionModel) : Bool :=
  decide (x.version = r.version)

/-- Primary-key test of `block_metadata_transactions` rows (key: version). -/
def BlockMetadataTransactionModel.sameKey
    (x r : BlockMetadataTransactionModel) : Bool :=
  decide (x.version = r.version)

/-- Primary-key test of `events` rows
(key: account_address, creation_number, sequence_number). -/
def EventModel.sameKey (x r : EventModel) : Bool :=
  decide (x.account_address = r.account_address ∧
    x.creation_number = r.creation_number ∧
    x.sequence_number = r.sequence_number)

/-- Primary-key test of `write_set_changes` rows
(key: transaction_version, index). -/
def WriteSetChangeModel.sameKey (x r : WriteSetChangeModel) : Bool :=
  decide (x.transaction_version = r.transaction_version ∧ x.index = r.index)

/-- Executes the chunk loop shared by the five insert helpers of
`default_processor.rs`: each chunk is one insert statement; the oracle decides
whether the statement raises a SQL error, in which case the `.expect` panics
(losing the in-progress trace, since the process aborts); otherwise the chunk
is inserted with on-conflict-do-nothing and one `rowInsert` trace event per
row is recorded. -/
def execChunkedInsert {α : Type} (oracle : Nat → Bool) (sameKey : α → α → Bool)
    (fam : RowFamily) (ver : α → Nat) (rows : List α) :
    List (Nat × Nat) → List α → List TraceEv → Nat →
    POutcome (List α × List TraceEv × Nat)
  | [], table, tr, stmt => .ok (table, tr, stmt)
  | c :: rest, table, tr, stmt =>
      if oracle stmt then
        execChunkedInsert oracle sameKey fam ver rows rest
          (insertOnConflictDoNothing sameKey table
            ((rows.drop c.1).take (c.2 - c.1)))
          (tr ++ ((rows.drop c.1).take (c.2 - c.1)).map fun r =>
            TraceEv.rowInsert fam (ver r))
          (stmt + 1)
      else
        .panicked "Error inserting row into database"

/-- `default_processor.rs` lines 85-96: chunked insert into `transactions`. -/
def insert_transactions (oracle : Nat → Bool) (txns : List TransactionModel)
    (table : List TransactionModel) (tr : List TraceEv) (stmt : Nat) :
    POutcome (List TransactionModel × List TraceEv × Nat) :=
  execChunkedInsert oracle TransactionModel.sameKey RowFamily.transactions
    TransactionModel.version txns
    (get_chunks txns.length TransactionModel.field_count) table tr stmt

/-- `default_processor.rs` lines 98-109: chunked insert into
`user_transactions`. -/
def insert_user_transactions (oracle : Nat → Bool)
    (user_txns : List UserTransactionModel) (table : List UserTransactionModel)
    (tr : List TraceEv) (stmt : Nat) :
    POutcome (List UserTransactionModel × List TraceEv × Nat) :=
  execChunkedInsert oracle UserTransactionModel.sameKey
    RowFamily.user_transactions UserTransactionModel.version user_txns
    (get_chunks user_txns.length UserTransactionModel.field_count) table tr stmt

/-- `default_processor.rs` lines 111-125: chunked insert into
`block_metadata_transactions`.  Note: the source passes
`UserTransactionModel::field_count()` to `get_chunks` here (line 115), not
`BlockMetadataTransactionModel::field_count()`; the embedding transcribes
that. -/
def insert_block_metadata_transactions (oracle : Nat → Bool)
    (bm_txns : List BlockMetadataTransactionModel)
    (table : List BlockMetadataTransactionModel) (tr : List TraceEv)
    (stmt : Nat) :
    POutcome (List BlockMetadataTransactionModel × List TraceEv × Nat) :=
  execChunkedInsert oracle BlockMetadataTransactionModel.sameKey
    RowFamily.block_metadata_transactions BlockMetadataTransactionModel.version
    bm_txns (get_chunks bm_txns.length UserTransactionModel.field_count)
    table tr stmt

/-- `default_processor.rs` lines 59-70: chunked insert into `events`. -/
def insert_events (oracle : Nat → Bool) (events : List EventModel)
    (table : List EventModel) (tr : List TraceEv) (stmt : Nat) :
    POutcome (List EventModel × List TraceEv × Nat) :=
  execChunkedInsert oracle EventModel.sameKey RowFamily.events
    EventModel.transaction_version events
    (get_chunks events.length EventModel.field_count) table tr stmt

/-- `default_processor.rs` lines 72-83: chunked insert into
`write_set_changes`. -/
def insert_write_set_changes (oracle : Nat → Bool)
    (wscs : List WriteSetChangeModel) (table : List WriteSetChangeModel)
    (tr : List TraceEv) (stmt : Nat) :
    POutcome (List WriteSetChangeModel × List TraceEv × Nat) :=
  execChunkedInsert oracle WriteSetChangeModel.sameKey
    RowFamily.write_set_changes WriteSetChangeModel.transaction_version wscs
    (get_chunks wscs.length WriteSetChangeModel.field_count) table tr stmt

/-- Result of `conn.build_transaction().read_write().run(..)` in
`insert_to_db`: diesel surfaces begin/commit failures as `Err`, a SQL error
inside an insert helper panics through the helper's `.expect`. The diesel
error is carried as the index of the failing statement. -/
inductive DbTxResult where
  | ok
  | err (e : Nat)
  | panicked (msg : String)
  deriving DecidableEq, Repr

/-- `default_processor.rs` lines 127-154 (`insert_to_db`): one read-write
backend transaction that performs, in order, the `transactions`,
`user_transactions`, `block_metadata_transactions`, `events` and
`write_set_changes` inserts.  The durable database changes only if the
transaction commits: the five working tables replace the durable ones at
COMMIT; on a panic inside the closure, or a begin/commit error, the durable
database is unchanged (the range is rolled back). -/
def insert_to_db (oracle : Nat → Bool) (txns : List TransactionModel)
    (user_txns : List UserTransactionModel)
    (bm_txns : List BlockMetadataTransactionModel)
    (events : List EventModel) (wscs : List WriteSetChangeModel)
    (st : ExecState) : DbTxResult × ExecState :=
  -- BEGIN
  if oracle st.stmt then
    match insert_transactions oracle txns st.db.transactions st.trace
        (st.stmt + 1) with
    | .panicked m => (.panicked m, st)
    | .ok (t1, tr1, s1) =>
    match insert_user_transactions oracle user_txns st.db.user_transactions
        tr1 s1 with
    | .panicked m => (.panicked m, st)
    | .ok (t2, tr2, s2) =>
    match insert_block_metadata_transactions oracle bm_txns
        st.db.block_metadata_transactions tr2 s2 with
    | .panicked m => (.panicked m, st)
    | .ok (t3, tr3, s3) =>
    match insert_events oracle events st.db.events tr3 s3 with
    | .panicked m => (.panicked m, st)
    | .ok (t4, tr4, s4) =>
    match insert_write_set_changes oracle wscs st.db.write_set_changes
        tr4 s4 with
    | .panicked m => (.panicked m, st)
    | .ok (t5, tr5, s5) =>
      -- COMMIT
      if oracle s5 then
        (.ok,
         { db := { st.db with
                   transactions := t1,
                   user_transactions := t2,
                   block_metadata_transactions := t3,
                   events := t4,
                   write_set_changes := t5 },
           trace := tr5,
           stmt := s5 + 1 })
      else
        (.err s5, { st with trace := tr5, stmt := s5 + 1 })
  else
    (.err st.stmt, { st with stmt := st.stmt + 1 })

/-- `errors.rs` (via `default_processor.rs` lines 179-184): the typed error
wrapping a backend error together with `(start_version, end_version, name)`. -/
inductive TransactionProcessingError where
  | transactionCommitError (e : Nat) (start_version end_version : Nat)
      (name : String)
  deriving DecidableEq, Repr

/-- `processing_result.rs`: the success value `(name, start, end)`. -/
structure ProcessingResult where
  name : String
  start_version : Nat
  end_version : Nat
  deriving DecidableEq, Repr

/-- Outcome of `process_transactions` and
`process_transactions_with_status`. -/
inductive ProcRes where
  | ok (r : ProcessingResult)
  | err (e : TransactionProcessingError)
  | panicked (msg : String)
  deriving DecidableEq, Repr

/-- `default_processor.rs` lines 156-186 (`process_transactions`): decompose
the raw transactions into the five row families; run `insert_to_db`; map `Ok`
to a `ProcessingResult` and `Err` to a `TransactionCommitError` carrying the
cause and `(start_version, end_version, name)`.  A panic inside `insert_to_db`
propagates. -/
def process_transactions (oracle : Nat → Bool) (name : String)
    (transactions : List RawTransaction) (start_version end_version : Nat)
    (st : ExecState) : ProcRes × ExecState :=
  let fam := TransactionModel.from_transactions transactions
  match insert_to_db oracle fam.1 fam.2.1 fam.2.2.1 fam.2.2.2.1 fam.2.2.2.2
      st with
  | (.ok, st') => (.ok { name := name, start_version := start_version,
                         end_version := end_version }, st')
  | (.err e, st') =>
      (.err (.transactionCommitError e start_version end_version name), st')
  | (.panicked m, st') => (.panicked m, st')

/-- Executes the chunk loop of `apply_processor_status`
(`postgres_processor.rs` lines 57-75 and `postgres_handle.rs` lines 85-103):
each chunk is one upsert statement (autocommitted, durable immediately); a SQL
error panics through `.expect("Error updating Processor Status!")`. -/
def execChunkedUpsert (oracle : Nat → Bool)
    (rows : List ProcessorStatusModel) :
    List (Nat × Nat) → ProcessorStatusTable → List TraceEv → Nat →
    POutcome (ProcessorStatusTable × List TraceEv × Nat)
  | [], table, tr, stmt => .ok (table, tr, stmt)
  | c :: rest, table, tr, stmt =>
      if oracle stmt then
        execChunkedUpsert oracle rows rest
          (upsertProcessorStatusRows table ((rows.drop c.1).take (c.2 - c.1)))
          (tr ++ ((rows.drop c.1).take (c.2 - c.1)).map fun r =>
            TraceEv.statusUpsert r.name r.version r.success r.details)
          (stmt + 1)
      else
        .panicked "Error updating Processor Status!"

/-- The metadata handle's `apply_processor_status` acting on the execution
state: chunk the rows by `ProcessorStatusModel::field_count` and upsert each
chunk.  Metadata statements run outside any backend transaction of the row
families, so each chunk is durable as soon as it executes. -/
def apply_processor_status_exec (oracle : Nat → Bool)
    (psms : List ProcessorStatusModel) (st : ExecState) :
    POutcome ExecState :=
  match execChunkedUpsert oracle psms
      (get_chunks psms.length ProcessorStatusModel.field_count)
      st.db.processor_statuses st.trace st.stmt with
  | .ok (t, tr, s) =>
      .ok { st with
            db := { st.db with processor_statuses := t },
            trace := tr,
            stmt := s }
  | .panicked m => .panicked m

/-- `transaction_processor.rs` lines 75-92 (`mark_versions_started`): upsert
`(name, v, success=false, details=null)` for every `v` in `start..=end`. -/
def mark_versions_started (oracle : Nat → Bool) (name : String)
    (start_version end_version : Nat) (st : ExecState) : POutcome ExecState :=
  apply_processor_status_exec oracle
    (ProcessorStatusModel.from_versions name start_version end_version false
      none) st

/-- `transaction_processor.rs` lines 95-113 (`update_status_success`): upsert
`(name, v, success=true, details=null)` for every `v` in the processed range.
Defined for reference: the call site in `process_transactions_with_status`
drops the future this method returns without awaiting it, so its body never
runs there. -/
def update_status_success (oracle : Nat → Bool) (name : String)
    (processing_result : ProcessingResult) (st : ExecState) :
    POutcome ExecState :=
  apply_processor_status_exec oracle
    (ProcessorStatusModel.from_versions name processing_result.start_version
      processing_result.end_version true none) st

/-- Modelled from the spec: `ProcessorStatusModel::from_transaction_processing_err`
(`models/processor_statuses.rs`, not under `src/`) builds error rows for the
range with `success=false` and the formatted error as details. -/
def ProcessorStatusModel.from_transaction_processing_err
    (tpe : TransactionProcessingError) : List ProcessorStatusModel :=
  match tpe with
  | .transactionCommitError _ start_version end_version name =>
      ProcessorStatusModel.from_versions name start_version end_version false
        (some "TransactionCommitError")

/-- `transaction_processor.rs` lines 116-127 (`update_status_err`).  Defined
for reference: like `update_status_success`, the call site drops the returned
future without awaiting it. -/
def update_status_err (oracle : Nat → Bool)
    (tpe : TransactionProcessingError) (st : ExecState) :
    POutcome ExecState :=
  apply_processor_status_exec oracle
    (ProcessorStatusModel.from_transaction_processing_err tpe) st

/-- `transaction_processor.rs` lines 46-72 (`process_transactions_with_status`):
assert the list is non-empty (panics otherwise); take `start`/`end` from the
first/last transaction's version; await `mark_versions_started`; await
`process_transactions`.  The final `match` on the result (lines 67-70) calls
`update_status_success` / `update_status_err` WITHOUT `.await`: under
`#[async_trait]` both return a boxed future, the two arms have the same type,
and the future is dropped unpolled, so neither status update executes.  The
embedding therefore applies no state change in that match.  (The metric
counters `PROCESSOR_INVOCATIONS`/`SUCCESSES`/`ERRORS` are omitted from the
state.) -/
def process_transactions_with_status (oracle : Nat → Bool) (name : String)
    (txns : List RawTransaction) (st : ExecState) : ProcRes × ExecState :=
  match txns with
  | [] => (.panicked "Must provide at least one transaction to this function",
           st)
  | first :: rest =>
      let start_version := first.version
      let end_version := (rest.getLastD first).version
      match mark_versions_started oracle name start_version end_version st with
      | .panicked m => (.panicked m, st)
      | .ok st1 =>
          process_transactions oracle name (first :: rest) start_version
            end_version st1

/-! ## Concrete inputs for counterexamples and witnesses -/

/-- The all-success oracle: no statement raises a SQL error. -/
def allOk : Nat → Bool := fun _ => true

/-- A raw user transaction at version 0 with one event and one write-set
change. -/
def sampleTxn : RawTransaction :=
  { version := 0, hash := "0xh0", state_change_hash := "0xs0",
    event_root_hash := "0xe0", gas_used := 7, success := true,
    vm_status := "Executed successfully", accumulator_root_hash := "0xa0",
    variant := .userTransaction
      { parent_signature_type := "ed25519_signature", sender := "0xcafe",
        sequence_number := 0, max_gas_amount := 1000,
        expiration_timestamp_secs := 9999, gas_unit_price := 1,
        timestamp := 77 },
    events := [{ account_address := "0xcafe", creation_number := 0,
                 sequence_number := 0, typ := "0x1::coin::DepositEvent",
                 data := "amount 5" }],
    changes := [{ typ := "write_resource", address := "0xcafe",
                  state_key_hash := "0xkey", data := "resource data",
                  hash := "0xchash" }] }

/-- The empty database. -/
def emptyDb : DbState :=
  { transactions := [], user_transactions := [],
    block_metadata_transactions := [], events := [], write_set_changes := [],
    processor_statuses := [] }

/-- The initial execution state: empty database, empty trace, statement 0. -/
def initState : ExecState := { db := emptyDb, trace := [], stmt := 0 }

/-- An oracle that raises a SQL error exactly on statement index 3 — for a
`process_transactions` run on `[sampleTxn]` from `initState`, that is the
`events` insert (0 = BEGIN, 1 = transactions chunk, 2 = user_transactions
chunk, no block-metadata statement for an empty row list, 3 = events
chunk). -/
def failAtStmt3 : Nat → Bool := fun i => decide (i ≠ 3)

/-- The durable effect of a committed `insert_to_db` transaction: all five row
families inserted with on-conflict-do-nothing, the status table untouched. -/
def commitFamilies (d : DbState) (txns : List TransactionModel)
    (user_txns : List UserTransactionModel)
    (bm_txns : List BlockMetadataTransactionModel)
    (events : List EventModel) (wscs : List WriteSetChangeModel) : DbState :=
  { d with
    transactions :=
      insertOnConflictDoNothing TransactionModel.sameKey d.transactions txns,
    user_transactions :=
      insertOnConflictDoNothing UserTransactionModel.sameKey
        d.user_transactions user_txns,
    block_metadata_transactions :=
      insertOnConflictDoNothing BlockMetadataTransactionModel.sameKey
        d.block_metadata_transactions bm_txns,
    events := insertOnConflictDoNothing EventModel.sameKey d.events events,
    write_set_changes :=
      insertOnConflictDoNothing WriteSetChangeModel.sameKey
        d.write_set_changes wscs }

/-- The durable database left by one invocation of the processing path
(`process_transactions_with_status` with no SQL errors) on a starting
database. -/
def runDb (name : String) (txns : List RawTransaction) (d : DbState) :
    DbState :=
  (process_transactions_with_status allOk name txns
    { db := d, trace := [], stmt := 0 }).2.db

/-! ## Lemmas about chunking -/

/-- Every chunk produced by `get_chunks_aux` spans at most `cs` indices. -/
theorem get_chunks_aux_size {cs n : Nat} :
    ∀ {fuel start : Nat} {p : Nat × Nat}, p ∈ get_chunks_aux cs n fuel start →
      p.2 - p.1 ≤ cs := by
  intro fuel
  induction fuel with
  | zero => intro start p hp; simp [get_chunks_aux] at hp
  | succ fuel ih =>
      intro start p hp
      simp only [get_chunks_aux] at hp
      by_cases h : start < n
      · rw [if_pos h] at hp
        rcases List.mem_cons.mp hp with rfl | hp
        · simp only []
          omega
        · exact ih hp
      · rw [if_neg h] at hp; simp at hp

/-- Every chunk produced by `get_chunks` spans at most
`floor(MAX_PARAMS_PER_STATEMENT / column_count)` rows (for a column count
that divides into the limit at least once). -/
theorem get_chunks_size {n fc : Nat} (hfc : 1 ≤ MAX_PARAMS_PER_STATEMENT / fc)
    {p : Nat × Nat} (hp : p ∈ get_chunks n fc) :
    p.2 - p.1 ≤ MAX_PARAMS_PER_STATEMENT / fc := by
  unfold get_chunks at hp
  have h := get_chunks_aux_size hp
  omega

/-- C5: Every insert statement issued by the default processor covers a chunk
of at most `floor(65535 / field_count(F))` rows, where `field_count(F)` is
the field count of the family's own row model.  Each conjunct quantifies over
the chunks consulted by the corresponding insert helper of
`default_processor.rs` (and the status upserts of the metadata handles); the
`block_metadata_transactions` helper chunks with
`UserTransactionModel::field_count` (source line 115), which is at least the
family's own field count, so its statements are in fact smaller than the
family bound requires. -/
theorem chunkSizeRespectsOwnFieldCount (n : Nat) (p : Nat × Nat) :
    (p ∈ get_chunks n TransactionModel.field_count →
      p.2 - p.1 ≤ MAX_PARAMS_PER_STATEMENT / TransactionModel.field_count) ∧
    (p ∈ get_chunks n UserTransactionModel.field_count →
      p.2 - p.1 ≤
        MAX_PARAMS_PER_STATEMENT / UserTransactionModel.field_count) ∧
    (p ∈ get_chunks n UserTransactionModel.field_count →
      p.2 - p.1 ≤
        MAX_PARAMS_PER_STATEMENT / BlockMetadataTransactionModel.field_count) ∧
    (p ∈ get_chunks n EventModel.field_count →
      p.2 - p.1 ≤ MAX_PARAMS_PER_STATEMENT / EventModel.field_count) ∧
    (p ∈ get_chunks n WriteSetChangeModel.field_count →
      p.2 - p.1 ≤ MAX_PARAMS_PER_STATEMENT / WriteSetChangeModel.field_count) ∧
    (p ∈ get_chunks n ProcessorStatusModel.field_count →
      p.2 - p.1 ≤ MAX_PARAMS_PER_STATEMENT / ProcessorStatusModel.field_count) := by
  refine ⟨fun h => get_chunks_size (by decide) h,
          fun h => get_chunks_size (by decide) h,
          fun h => ?_,
          fun h => get_chunks_size (by decide) h,
          fun h => get_chunks_size (by decide) h,
          fun h => get_chunks_size (by decide) h⟩
  have := get_chunks_size (by decide) h
  revert this
  norm_num [MAX_PARAMS_PER_STATEMENT, UserTransactionModel.field_count,
    BlockMetadataTransactionModel.field_count]
  omega

/-- Witness for C5: a concrete chunk of the `transactions` family respects the
bound. -/
theorem chunkSizeRespectsOwnFieldCount_witness :
    (0, 3) ∈ get_chunks 3 TransactionModel.field_count ∧
    (3 : Nat) - 0 ≤ MAX_PARAMS_PER_STATEMENT / TransactionModel.field_count :=
  ⟨by decide, (chunkSizeRespectsOwnFieldCount 3 (0, 3)).1 (by decide)⟩

/-- C7: `get_error_versions(name)` returns exactly the versions `v` whose row
`(name, v)` has `success = false` — including rows still in the started state
(`success=false, details=null`) — and no version of a different processor
name or with `success = true`. -/
theorem getErrorVersionsSpec (table : ProcessorStatusTable)
    (processor_name : String) (v : Nat) :
    v ∈ PgProcessorMetadataHandle.get_error_versions table processor_name ↔
      ∃ r ∈ table, r.name = processor_name ∧ r.version = v ∧
        r.success = false := by
  simp only [PgProcessorMetadataHandle.get_error_versions, List.mem_map,
    List.mem_filter, decide_eq_true_eq]
  constructor
  · rintro ⟨r, ⟨hr, hs, hn⟩, rfl⟩
    exact ⟨r, hr, hn, rfl, hs⟩
  · rintro ⟨r, hr, hn, rfl, hs⟩
    exact ⟨r, ⟨hr, hs, hn⟩, rfl⟩

/-- Witness for C7 (the theorem's statement is an equivalence; instantiated at
a concrete table for good measure): version 5 of a started row is reported,
by the theorem applied at that table. -/
theorem getErrorVersionsSpec_witness :
    5 ∈ PgProcessorMetadataHandle.get_error_versions
      [{ name := "default_processor", version := 5, success := false,
         details := none }] "default_processor" :=
  (getErrorVersionsSpec
    [{ name := "default_processor", version := 5, success := false,
       details := none }] "default_processor" 5).mpr
    ⟨{ name := "default_processor", version := 5, success := false,
       details := none }, by decide, rfl, rfl, rfl⟩

/-- Narrowing a widened `u64` succeeds. -/
theorem to_u64_of_lt (v : Nat) (hv : v < 2 ^ 64) :
    BigDecimal.to_u64 (BigDecimal.from_u64 v) = some v := by
  have h1 : (0 : Int) ≤ (v : Int) := Int.natCast_nonneg v
  have h2 : (v : Int) < 2 ^ 64 := by exact_mod_cast hv
  unfold BigDecimal.to_u64 BigDecimal.from_u64
  rw [if_pos ⟨h1, h2⟩]
  simp

/-- Narrowing a decimal outside `[0, 2^64)` yields `none`. -/
theorem to_u64_out_of_range (d : BigDecimal) (hd : d < 0 ∨ 2 ^ 64 ≤ d) :
    BigDecimal.to_u64 d = none := by
  have h : ¬(0 ≤ d ∧ d < 2 ^ 64) := by
    rcases hd with h | h
    · exact fun hc => absurd hc.1 (Int.not_le.mpr h)
    · exact fun hc => absurd hc.2 (Int.not_lt.mpr h)
  unfold BigDecimal.to_u64
  rw [if_neg h]

/-- C8: for every `u64` value `v` (any `Nat` below `2^64`), the widen/narrow
pair round-trips exactly: `u64_to_bigdecimal` succeeds with the widened
decimal and `bigdecimal_to_u64` recovers `v`; and `bigdecimal_to_u64` panics
on every decimal outside `[0, 2^64)`. -/
theorem bigdecimalRoundTrip (v : Nat) (hv : v < 2 ^ 64) :
    u64_to_bigdecimal v = POutcome.ok (BigDecimal.from_u64 v) ∧
    bigdecimal_to_u64 (BigDecimal.from_u64 v) = POutcome.ok v ∧
    (∀ d : BigDecimal, d < 0 ∨ 2 ^ 64 ≤ d →
      bigdecimal_to_u64 d =
        POutcome.panicked "Unable to convert big decimal to u64") := by
  refine ⟨rfl, ?_, ?_⟩
  · rw [bigdecimal_to_u64, to_u64_of_lt v hv]
  · intro d hd
    rw [bigdecimal_to_u64, to_u64_out_of_range d hd]

/-- Witness for C8: the boundary value `18446744073709551610` (above `2^53`)
round-trips exactly, by the theorem applied at that value. -/
theorem bigdecimalRoundTrip_witness :
    (18446744073709551610 : Nat) < 2 ^ 64 ∧
    bigdecimal_to_u64 (BigDecimal.from_u64 18446744073709551610) =
      POutcome.ok 18446744073709551610 :=
  ⟨by norm_num, (bigdecimalRoundTrip 18446744073709551610 (by norm_num)).2.1⟩

/-- C9: for every response sequence, `get_pg_conn_from_pool` returns the first
successful acquisition, incrementing `UNABLE_TO_GET_CONNECTION` exactly once
per failed attempt before it and `GOT_CONNECTION` exactly once on success;
and while every attempt fails it does not return (for every finite number of
failing attempts the loop is still running). -/
theorem getPgConnFromPoolSpec (n : Nat) (conn : PgPoolConnection)
    (rest : List (Option PgPoolConnection)) (c : ConnCounters) :
    get_pg_conn_from_pool (List.replicate n none ++ some conn :: rest) c =
      some (conn,
        { got_connection := c.got_connection + 1,
          unable_to_get_connection := c.unable_to_get_connection + n }) ∧
    get_pg_conn_from_pool (List.replicate n none) c = none := by
  induction n generalizing c with
  | zero => simp [get_pg_conn_from_pool]
  | succ n ih =>
      constructor
      · have h := (ih { c with
          unable_to_get_connection := c.unable_to_get_connection + 1 }).1
        simp only [List.replicate_succ, List.cons_append, List.append_eq,
          get_pg_conn_from_pool] at h ⊢
        rw [h]
        simp only [Option.some.injEq, Prod.mk.injEq, ConnCounters.mk.injEq,
          true_and]
        omega
      · have h := (ih { c with
          unable_to_get_connection := c.unable_to_get_connection + 1 }).2
        simp only [List.replicate_succ, get_pg_conn_from_pool] at h ⊢
        exact h

/-- C10: the two parallel metadata-handle implementations (`PostgresHandle` in
`postgres_handle.rs` and `PgProcessorMetadataHandle` in
`postgres_processor.rs`) are behaviorally equivalent: on the same
`processor_statuses` table state and processor name their `get_max_version`
and `get_error_versions` results are equal, and `apply_processor_status`
produces identical table states for every input row slice. -/
theorem metadataHandlesEquivalent (table : ProcessorStatusTable)
    (processor_name : String) (psms : List ProcessorStatusModel) :
    PostgresHandle.get_error_versions table processor_name =
      PgProcessorMetadataHandle.get_error_versions table processor_name ∧
    PostgresHandle.get_max_version table processor_name =
      PgProcessorMetadataHandle.get_max_version table processor_name ∧
    PostgresHandle.apply_processor_status table psms =
      PgProcessorMetadataHandle.apply_processor_status table psms :=
  ⟨rfl, rfl, rfl⟩

/-- C1 (failing run): processing `[sampleTxn]` (versions 0..=0) from the empty
database succeeds — `process_transactions_with_status` returns `Ok` — yet the
processor-status table afterwards holds only the started row
`(name, 0, success=false, details=null)`: no `(name, v, success=true,
details=null)` row was upserted for any version of the range, because the
future returned by `update_status_success` is dropped without being awaited
(`transaction_processor.rs` line 68). -/
theorem successStatusNotUpserted :
    (process_transactions_with_status allOk "default_processor" [sampleTxn]
      initState).1 =
      ProcRes.ok { name := "default_processor", start_version := 0,
                   end_version := 0 } ∧
    (process_transactions_with_status allOk "default_processor" [sampleTxn]
      initState).2.db.processor_statuses =
      [{ name := "default_processor", version := 0, success := false,
         details := none }] := by
  decide

/-- Counterexample to C2: after the same successful run, the durable state has
the row-family rows of version 0 committed (the `transactions` table is
non-empty) while the version's status update to `success=true` is not
committed (every status row has `success=false`) — a durable state the claim
says cannot exist. -/
theorem rowsCommittedWithoutSuccessStatus :
    (process_transactions_with_status allOk "default_processor" [sampleTxn]
      initState).2.db.transactions ≠ [] ∧
    ∀ r ∈ (process_transactions_with_status allOk "default_processor"
      [sampleTxn] initState).2.db.processor_statuses, r.success = false := by
  decide

/-- Counterexample to C3: with a SQL error injected into the `events` insert
(statement 3), `process_transactions` panics through
`.expect("Error inserting row into database")` instead of returning a
`TransactionCommitError`; the range is not committed (the durable database is
unchanged). -/
theorem insertSqlErrorPanics :
    (process_transactions failAtStmt3 "process_transactions" [sampleTxn] 0 0
      initState).1 =
      ProcRes.panicked "Error inserting row into database" ∧
    (process_transactions failAtStmt3 "process_transactions" [sampleTxn] 0 0
      initState).2.db = emptyDb := by
  decide

/-- Counterexample to C4: after invoking the processing path once (and after
invoking it twice — the second run changes nothing), the `processor_statuses`
row of the processed version has `success=false`, not the `success=true` the
claim asserts. -/
theorem repeatedRunLeavesStartedStatus :
    runDb "default_processor" [sampleTxn]
        (runDb "default_processor" [sampleTxn] emptyDb) =
      runDb "default_processor" [sampleTxn] emptyDb ∧
    (runDb "default_processor" [sampleTxn] emptyDb).processor_statuses =
      [{ name := "default_processor", version := 0, success := false,
         details := none }] := by
  decide

/-! ## Lemmas: the chunk slices of a row list rebuild the row list -/

/-- The slices addressed by `get_chunks_aux` concatenate to the suffix of the
rows from `start`. -/
theorem get_chunks_aux_join {α : Type} (cs : Nat) (rows : List α)
    (hcs : 0 < cs) :
    ∀ (fuel start : Nat), rows.length - start ≤ fuel →
      ((get_chunks_aux cs rows.length fuel start).map
        (fun c => (rows.drop c.1).take (c.2 - c.1))).flatten =
        rows.drop start := by
  intro fuel
  induction fuel with
  | zero =>
      intro start h
      have : rows.length ≤ start := by omega
      simp [get_chunks_aux, List.drop_eq_nil_of_le this]
  | succ fuel ih =>
      intro start h
      by_cases hlt : start < rows.length
      · simp only [get_chunks_aux, if_pos hlt, List.map_cons,
          List.flatten_cons]
        rw [ih (start + cs) (by omega)]
        have hdrop : rows.drop (start + cs) = (rows.drop start).drop cs := by
          rw [List.drop_drop, Nat.add_comm]
        have hlen : (rows.drop start).length = rows.length - start :=
          List.length_drop start rows
        have htake : (rows.drop start).take (min (start + cs) rows.length - start) =
            (rows.drop start).take cs := by
          rw [List.take_eq_take]
          omega
        rw [hdrop, htake, List.take_append_drop]
      · simp only [get_chunks_aux, if_neg hlt, List.map_nil,
          List.flatten_nil]
        have : rows.length ≤ start := by omega
        rw [List.drop_eq_nil_of_le this]

/-- The slices addressed by `get_chunks` concatenate to the whole row list. -/
theorem get_chunks_slices_join {α : Type} (rows : List α) (fc : Nat) :
    ((get_chunks rows.length fc).map
      (fun c => (rows.drop c.1).take (c.2 - c.1))).flatten = rows := by
  unfold get_chunks
  have h := get_chunks_aux_join (max 1 (MAX_PARAMS_PER_STATEMENT / fc)) rows
    (by omega) rows.length 0 (by omega)
  simpa using h

/-! ## Lemmas: insert-on-conflict-do-nothing algebra -/

/-- Inserting a concatenation equals inserting the parts in sequence. -/
theorem insertDN_append {α : Type} (k : α → α → Bool) (t : List α)
    (a b : List α) :
    insertOnConflictDoNothing k t (a ++ b) =
      insertOnConflictDoNothing k (insertOnConflictDoNothing k t a) b := by
  unfold insertOnConflictDoNothing
  rw [List.foldl_append]

/-- Insert-do-nothing only ever appends, so an existing `any` witness
survives. -/
theorem insertDN_any_mono {α : Type} (k : α → α → Bool) (p : α → Bool)
    (rows : List α) :
    ∀ (t : List α), t.any p = true →
      (insertOnConflictDoNothing k t rows).any p = true := by
  induction rows with
  | nil => intro t h; simp only [insertOnConflictDoNothing, List.foldl_nil]; exact h
  | cons r rest ih =>
      intro t h
      show (insertOnConflictDoNothing k
        (if t.any fun x => k x r then t else t ++ [r]) rest).any p = true
      apply ih
      by_cases hc : (t.any fun x => k x r) = true
      · rw [if_pos hc]; exact h
      · rw [if_neg (by simpa using hc)]
        simp [List.any_append, h]

/-- After insert-do-nothing, every inserted row's key is present (given that
the key test is reflexive). -/
theorem insertDN_self_present {α : Type} (k : α → α → Bool)
    (hrefl : ∀ a, k a a = true) (rows : List α) :
    ∀ (t : List α) (r : α), r ∈ rows →
      ((insertOnConflictDoNothing k t rows).any fun x => k x r) = true := by
  induction rows with
  | nil => intro t r h; cases h
  | cons a rest ih =>
      intro t r h
      show ((insertOnConflictDoNothing k
        (if t.any fun x => k x a then t else t ++ [a]) rest).any
          fun x => k x r) = true
      rcases List.mem_cons.mp h with rfl | hr
      · by_cases hc : (t.any fun x => k x r) = true
        · rw [if_pos hc]
          exact insertDN_any_mono k _ rest t hc
        · rw [if_neg (by simpa using hc)]
          apply insertDN_any_mono
          simp [List.any_append, hrefl r]
      · exact ih _ r hr

/-- Inserting rows whose keys are all already present is a no-op. -/
theorem insertDN_noop {α : Type} (k : α → α → Bool) (rows : List α) :
    ∀ (t : List α), (∀ r ∈ rows, (t.any fun x => k x r) = true) →
      insertOnConflictDoNothing k t rows = t := by
  induction rows with
  | nil => intro t _; rfl
  | cons a rest ih =>
      intro t h
      show insertOnConflictDoNothing k
        (if t.any fun x => k x a then t else t ++ [a]) rest = t
      rw [if_pos (h a (List.mem_cons_self a rest))]
      exact ih t fun r hr => h r (List.mem_cons_of_mem a hr)

/-- Insert-do-nothing is idempotent (for a reflexive key test). -/
theorem insertDN_idem {α : Type} (k : α → α → Bool)
    (hrefl : ∀ a, k a a = true) (t rows : List α) :
    insertOnConflictDoNothing k (insertOnConflictDoNothing k t rows) rows =
      insertOnConflictDoNothing k t rows :=
  insertDN_noop k rows _ fun r hr => insertDN_self_present k hrefl rows t r hr

/-! ## Lemmas: the chunked executors -/

/-- With no SQL errors, the chunk loop inserts the concatenation of its
slices, appends one row event per inserted row, and advances the statement
counter by one per chunk. -/
theorem execChunkedInsert_allOk {α : Type} (k : α → α → Bool) (fam : RowFamily)
    (ver : α → Nat) (rows : List α) :
    ∀ (chunks : List (Nat × Nat)) (table : List α) (tr : List TraceEv)
      (stmt : Nat),
      execChunkedInsert allOk k fam ver rows chunks table tr stmt =
        POutcome.ok
          (insertOnConflictDoNothing k table
            ((chunks.map fun c => (rows.drop c.1).take (c.2 - c.1)).flatten),
           tr ++ ((chunks.map fun c =>
             (rows.drop c.1).take (c.2 - c.1)).flatten).map
               (fun r => TraceEv.rowInsert fam (ver r)),
           stmt + chunks.length) := by
  intro chunks
  induction chunks with
  | nil =>
      intro table tr stmt
      simp [execChunkedInsert, insertOnConflictDoNothing]
  | cons c rest ih =>
      intro table tr stmt
      simp only [execChunkedInsert]
      rw [if_pos (show allOk stmt = true from rfl)]
      rw [ih]
      simp only [List.map_cons, List.flatten_cons, insertDN_append,
        List.map_append, List.append_assoc, List.length_cons]
      exact congrArg POutcome.ok (by rw [Nat.add_comm rest.length 1,
        ← Nat.add_assoc])

/-- Under any oracle, if the chunk loop returns `ok` then the resulting table
is the insert of the concatenation of its slices. -/
theorem execChunkedInsert_ok_table {α : Type} (oracle : Nat → Bool)
    (k : α → α → Bool) (fam : RowFamily) (ver : α → Nat) (rows : List α) :
    ∀ (chunks : List (Nat × Nat)) (table : List α) (tr : List TraceEv)
      (stmt : Nat) (t' : List α) (tr' : List TraceEv) (s' : Nat),
      execChunkedInsert oracle k fam ver rows chunks table tr stmt =
        POutcome.ok (t', tr', s') →
      t' = insertOnConflictDoNothing k table
        ((chunks.map fun c => (rows.drop c.1).take (c.2 - c.1)).flatten) := by
  intro chunks
  induction chunks with
  | nil =>
      intro table tr stmt t' tr' s' h
      simp only [execChunkedInsert, POutcome.ok.injEq, Prod.mk.injEq] at h
      simp [insertOnConflictDoNothing, ← h.1]
  | cons c rest ih =>
      intro table tr stmt t' tr' s' h
      simp only [execChunkedInsert] at h
      by_cases ho : oracle stmt
      · rw [if_pos ho] at h
        have := ih _ _ _ _ _ _ h
        simp only [List.map_cons, List.flatten_cons, insertDN_append]
        exact this
      · rw [if_neg ho] at h
        cases h

/-- The `transactions` key test is reflexive. -/
theorem transactionSameKeyRefl : ∀ a, TransactionModel.sameKey a a = true := by
  intro a; simp [TransactionModel.sameKey]

/-- The `user_transactions` key test is reflexive. -/
theorem userTransactionSameKeyRefl :
    ∀ a, UserTransactionModel.sameKey a a = true := by
  intro a; simp [UserTransactionModel.sameKey]

/-- The `block_metadata_transactions` key test is reflexive. -/
theorem blockMetadataSameKeyRefl :
    ∀ a, BlockMetadataTransactionModel.sameKey a a = true := by
  intro a; simp [BlockMetadataTransactionModel.sameKey]

/-- The `events` key test is reflexive. -/
theorem eventSameKeyRefl : ∀ a, EventModel.sameKey a a = true := by
  intro a; simp [EventModel.sameKey]

/-- The `write_set_changes` key test is reflexive. -/
theorem writeSetChangeSameKeyRefl :
    ∀ a, WriteSetChangeModel.sameKey a a = true := by
  intro a; simp [WriteSetChangeModel.sameKey]

/-- `insert_transactions` with no SQL errors: closed form. -/
theorem insert_transactions_allOk (txns : List TransactionModel)
    (table : List TransactionModel) (tr : List TraceEv) (stmt : Nat) :
    insert_transactions allOk txns table tr stmt =
      POutcome.ok
        (insertOnConflictDoNothing TransactionModel.sameKey table txns,
         tr ++ txns.map
           (fun r => TraceEv.rowInsert RowFamily.transactions r.version),
         stmt + (get_chunks txns.length TransactionModel.field_count).length) := by
  unfold insert_transactions
  rw [execChunkedInsert_allOk]
  rw [get_chunks_slices_join]

/-- `insert_user_transactions` with no SQL errors: closed form. -/
theorem insert_user_transactions_allOk (rows : List UserTransactionModel)
    (table : List UserTransactionModel) (tr : List TraceEv) (stmt : Nat) :
    insert_user_transactions allOk rows table tr stmt =
      POutcome.ok
        (insertOnConflictDoNothing UserTransactionModel.sameKey table rows,
         tr ++ rows.map
           (fun r => TraceEv.rowInsert RowFamily.user_transactions r.version),
         stmt +
           (get_chunks rows.length UserTransactionModel.field_count).length) := by
  unfold insert_user_transactions
  rw [execChunkedInsert_allOk]
  rw [get_chunks_slices_join]

/-- `insert_block_metadata_transactions` with no SQL errors: closed form
(this helper chunks by `UserTransactionModel::field_count`, transcribing the
source). -/
theorem insert_block_metadata_transactions_allOk
    (rows : List BlockMetadataTransactionModel)
    (table : List BlockMetadataTransactionModel) (tr : List TraceEv)
    (stmt : Nat) :
    insert_block_metadata_transactions allOk rows table tr stmt =
      POutcome.ok
        (insertOnConflictDoNothing BlockMetadataTransactionModel.sameKey table
          rows,
         tr ++ rows.map (fun r =>
           TraceEv.rowInsert RowFamily.block_metadata_transactions r.version),
         stmt +
           (get_chunks rows.length UserTransactionModel.field_count).length) := by
  unfold insert_block_metadata_transactions
  rw [execChunkedInsert_allOk]
  rw [get_chunks_slices_join]

/-- `insert_events` with no SQL errors: closed form. -/
theorem insert_events_allOk (rows : List EventModel) (table : List EventModel)
    (tr : List TraceEv) (stmt : Nat) :
    insert_events allOk rows table tr stmt =
      POutcome.ok
        (insertOnConflictDoNothing EventModel.sameKey table rows,
         tr ++ rows.map (fun r =>
           TraceEv.rowInsert RowFamily.events r.transaction_version),
         stmt + (get_chunks rows.length EventModel.field_count).length) := by
  unfold insert_events
  rw [execChunkedInsert_allOk]
  rw [get_chunks_slices_join]

/-- `insert_write_set_changes` with no SQL errors: closed form. -/
theorem insert_write_set_changes_allOk (rows : List WriteSetChangeModel)
    (table : List WriteSetChangeModel) (tr : List TraceEv) (stmt : Nat) :
    insert_write_set_changes allOk rows table tr stmt =
      POutcome.ok
        (insertOnConflictDoNothing WriteSetChangeModel.sameKey table rows,
         tr ++ rows.map (fun r =>
           TraceEv.rowInsert RowFamily.write_set_changes r.transaction_version),
         stmt + (get_chunks rows.length WriteSetChangeModel.field_count).length) := by
  unfold insert_write_set_changes
  rw [execChunkedInsert_allOk]
  rw [get_chunks_slices_join]

/-- Upserting a concatenation equals upserting the parts in sequence. -/
theorem upsertRows_append (t : ProcessorStatusTable)
    (a b : List ProcessorStatusModel) :
    upsertProcessorStatusRows t (a ++ b) =
      upsertProcessorStatusRows (upsertProcessorStatusRows t a) b := by
  unfold upsertProcessorStatusRows
  rw [List.foldl_append]

/-- With no SQL errors, the status chunk loop upserts the concatenation of its
slices and appends one status event per row. -/
theorem execChunkedUpsert_allOk (rows : List ProcessorStatusModel) :
    ∀ (chunks : List (Nat × Nat)) (table : ProcessorStatusTable)
      (tr : List TraceEv) (stmt : Nat),
      execChunkedUpsert allOk rows chunks table tr stmt =
        POutcome.ok
          (upsertProcessorStatusRows table
            ((chunks.map fun c => (rows.drop c.1).take (c.2 - c.1)).flatten),
           tr ++ ((chunks.map fun c =>
             (rows.drop c.1).take (c.2 - c.1)).flatten).map
               (fun r => TraceEv.statusUpsert r.name r.version r.success
                 r.details),
           stmt + chunks.length) := by
  intro chunks
  induction chunks with
  | nil =>
      intro table tr stmt
      simp [execChunkedUpsert, upsertProcessorStatusRows]
  | cons c rest ih =>
      intro table tr stmt
      simp only [execChunkedUpsert]
      rw [if_pos (show allOk stmt = true from rfl)]
      rw [ih]
      simp only [List.map_cons, List.flatten_cons, upsertRows_append,
        List.map_append, List.append_assoc, List.length_cons]
      exact congrArg POutcome.ok (by rw [Nat.add_comm rest.length 1,
        ← Nat.add_assoc])

/-- `apply_processor_status` with no SQL errors: closed form on the execution
state. -/
theorem apply_processor_status_exec_allOk (psms : List ProcessorStatusModel)
    (st : ExecState) :
    apply_processor_status_exec allOk psms st =
      POutcome.ok
        { st with
          db := { st.db with
                  processor_statuses :=
                    upsertProcessorStatusRows st.db.processor_statuses psms },
          trace := st.trace ++ psms.map
            (fun r => TraceEv.statusUpsert r.name r.version r.success
              r.details),
          stmt := st.stmt +
            (get_chunks psms.length ProcessorStatusModel.field_count).length } := by
  unfold apply_processor_status_exec
  rw [execChunkedUpsert_allOk]
  rw [get_chunks_slices_join]

/-- `insert_to_db` with no SQL errors: the transaction commits, and the
durable database gains exactly the five row-family inserts (the status table
untouched); the trace records the inserted rows in order. -/
theorem insert_to_db_allOk (txns : List TransactionModel)
    (user_txns : List UserTransactionModel)
    (bm_txns : List BlockMetadataTransactionModel)
    (events : List EventModel) (wscs : List WriteSetChangeModel)
    (st : ExecState) :
    insert_to_db allOk txns user_txns bm_txns events wscs st =
      (DbTxResult.ok,
       { db := commitFamilies st.db txns user_txns bm_txns events wscs,
         trace := st.trace
           ++ txns.map
             (fun r => TraceEv.rowInsert RowFamily.transactions r.version)
           ++ user_txns.map
             (fun r => TraceEv.rowInsert RowFamily.user_transactions r.version)
           ++ bm_txns.map (fun r =>
             TraceEv.rowInsert RowFamily.block_metadata_transactions r.version)
           ++ events.map (fun r =>
             TraceEv.rowInsert RowFamily.events r.transaction_version)
           ++ wscs.map (fun r =>
             TraceEv.rowInsert RowFamily.write_set_changes
               r.transaction_version),
         stmt := st.stmt + 1
           + (get_chunks txns.length TransactionModel.field_count).length
           + (get_chunks user_txns.length
               UserTransactionModel.field_count).length
           + (get_chunks bm_txns.length
               UserTransactionModel.field_count).length
           + (get_chunks events.length EventModel.field_count).length
           + (get_chunks wscs.length WriteSetChangeModel.field_count).length
           + 1 }) := by
  simp only [insert_to_db, allOk, if_true, insert_transactions_allOk,
    insert_user_transactions_allOk, insert_block_metadata_transactions_allOk,
    insert_events_allOk, insert_write_set_changes_allOk, commitFamilies]

/-- `process_transactions` with no SQL errors: returns the `ProcessingResult`
and commits exactly the decomposed row families. -/
theorem process_transactions_allOk (name : String)
    (T : List RawTransaction) (s e : Nat) (st : ExecState) :
    process_transactions allOk name T s e st =
      (ProcRes.ok { name := name, start_version := s, end_version := e },
       { db := commitFamilies st.db (T.map TransactionModel.from_raw)
           (T.filterMap UserTransactionModel.from_raw)
           (T.filterMap BlockMetadataTransactionModel.from_raw)
           ((T.map EventModel.from_raw).flatten)
           ((T.map WriteSetChangeModel.from_raw).flatten),
         trace := st.trace
           ++ (T.map TransactionModel.from_raw).map
             (fun r => TraceEv.rowInsert RowFamily.transactions r.version)
           ++ (T.filterMap UserTransactionModel.from_raw).map
             (fun r => TraceEv.rowInsert RowFamily.user_transactions r.version)
           ++ (T.filterMap BlockMetadataTransactionModel.from_raw).map
             (fun r =>
               TraceEv.rowInsert RowFamily.block_metadata_transactions
                 r.version)
           ++ ((T.map EventModel.from_raw).flatten).map
             (fun r => TraceEv.rowInsert RowFamily.events r.transaction_version)
           ++ ((T.map WriteSetChangeModel.from_raw).flatten).map
             (fun r => TraceEv.rowInsert RowFamily.write_set_changes
               r.transaction_version),
         stmt := st.stmt + 1
           + (get_chunks (T.map TransactionModel.from_raw).length
               TransactionModel.field_count).length
           + (get_chunks (T.filterMap UserTransactionModel.from_raw).length
               UserTransactionModel.field_count).length
           + (get_chunks
               (T.filterMap BlockMetadataTransactionModel.from_raw).length
               UserTransactionModel.field_count).length
           + (get_chunks ((T.map EventModel.from_raw).flatten).length
               EventModel.field_count).length
           + (get_chunks ((T.map WriteSetChangeModel.from_raw).flatten).length
               WriteSetChangeModel.field_count).length
           + 1 }) := by
  simp only [process_transactions, TransactionModel.from_transactions,
    insert_to_db_allOk]

/-- `process_transactions_with_status` with no SQL errors: the full closed
form.  The started rows are upserted to the status table and traced first;
then the backend transaction commits the five row families; the success
upsert never runs (its future is dropped), so the status table keeps the
started rows. -/
theorem process_transactions_with_status_allOk (name : String)
    (first : RawTransaction) (rest : List RawTransaction) (st : ExecState) :
    process_transactions_with_status allOk name (first :: rest) st =
      (ProcRes.ok { name := name, start_version := first.version,
                    end_version := (rest.getLastD first).version },
       { db := commitFamilies
           { st.db with
             processor_statuses :=
               upsertProcessorStatusRows st.db.processor_statuses
                 (ProcessorStatusModel.from_versions name first.version
                   (rest.getLastD first).version false none) }
           ((first :: rest).map TransactionModel.from_raw)
           ((first :: rest).filterMap UserTransactionModel.from_raw)
           ((first :: rest).filterMap BlockMetadataTransactionModel.from_raw)
           (((first :: rest).map EventModel.from_raw).flatten)
           (((first :: rest).map WriteSetChangeModel.from_raw).flatten),
         trace := st.trace
           ++ (ProcessorStatusModel.from_versions name first.version
               (rest.getLastD first).version false none).map
             (fun r => TraceEv.statusUpsert r.name r.version r.success
               r.details)
           ++ ((first :: rest).map TransactionModel.from_raw).map
             (fun r => TraceEv.rowInsert RowFamily.transactions r.version)
           ++ ((first :: rest).filterMap UserTransactionModel.from_raw).map
             (fun r => TraceEv.rowInsert RowFamily.user_transactions r.version)
           ++ ((first :: rest).filterMap
               BlockMetadataTransactionModel.from_raw).map
             (fun r =>
               TraceEv.rowInsert RowFamily.block_metadata_transactions
                 r.version)
           ++ (((first :: rest).map EventModel.from_raw).flatten).map
             (fun r => TraceEv.rowInsert RowFamily.events r.transaction_version)
           ++ (((first :: rest).map WriteSetChangeModel.from_raw).flatten).map
             (fun r => TraceEv.rowInsert RowFamily.write_set_changes
               r.transaction_version),
         stmt := st.stmt
           + (get_chunks (ProcessorStatusModel.from_versions name first.version
               (rest.getLastD first).version false none).length
               ProcessorStatusModel.field_count).length
           + 1
           + (get_chunks ((first :: rest).map TransactionModel.from_raw).length
               TransactionModel.field_count).length
           + (get_chunks
               ((first :: rest).filterMap UserTransactionModel.from_raw).length
               UserTransactionModel.field_count).length
           + (get_chunks
               ((first :: rest).filterMap
                 BlockMetadataTransactionModel.from_raw).length
               UserTransactionModel.field_count).length
           + (get_chunks
               (((first :: rest).map EventModel.from_raw).flatten).length
               EventModel.field_count).length
           + (get_chunks
               (((first :: rest).map WriteSetChangeModel.from_raw).flatten).length
               WriteSetChangeModel.field_count).length
           + 1 }) := by
  simp only [process_transactions_with_status, mark_versions_started,
    apply_processor_status_exec_allOk, process_transactions_allOk]

/-! ## Lemmas: upsert algebra for the status table -/

/-- After a single upsert, a row with the upserted key is present. -/
theorem upsert_self_present (t : ProcessorStatusTable)
    (r : ProcessorStatusModel) :
    ((upsertProcessorStatus t r).any fun x =>
      x.name = r.name ∧ x.version = r.version) = true := by
  unfold upsertProcessorStatus
  by_cases h : (t.any fun x => x.name = r.name ∧ x.version = r.version) = true
  · rw [if_pos h]
    rcases List.any_eq_true.mp h with ⟨x, hx, hmatch⟩
    refine List.any_eq_true.mpr ⟨r, ?_, by simp⟩
    refine List.mem_map.mpr ⟨x, hx, ?_⟩
    rw [if_pos (by simpa using hmatch)]
  · rw [if_neg h]
    simp [List.any_append]

/-- After a single upsert, every row with the upserted key equals the upserted
row. -/
theorem upsert_match_eq (t : ProcessorStatusTable)
    (r : ProcessorStatusModel) :
    ∀ x ∈ upsertProcessorStatus t r, x.name = r.name → x.version = r.version →
      x = r := by
  unfold upsertProcessorStatus
  by_cases h : (t.any fun x => x.name = r.name ∧ x.version = r.version) = true
  · rw [if_pos h]
    intro x hx hn hv
    rcases List.mem_map.mp hx with ⟨y, hy, hfy⟩
    by_cases hm : y.name = r.name ∧ y.version = r.version
    · rw [if_pos hm] at hfy; exact hfy.symm
    · rw [if_neg hm] at hfy
      subst hfy
      exact absurd ⟨hn, hv⟩ hm
  · rw [if_neg h]
    intro x hx hn hv
    rcases List.mem_append.mp hx with hx | hx
    · exact absurd (List.any_eq_true.mpr ⟨x, hx, by simp [hn, hv]⟩) h
    · simpa using hx

/-- A single upsert with a different key preserves presence of a key. -/
theorem upsert_preserve_any (t : ProcessorStatusTable)
    (q r' : ProcessorStatusModel)
    (hne : ¬(r'.name = q.name ∧ r'.version = q.version)) :
    (t.any fun x => x.name = q.name ∧ x.version = q.version) = true →
    ((upsertProcessorStatus t r').any fun x =>
      x.name = q.name ∧ x.version = q.version) = true := by
  intro h
  rcases List.any_eq_true.mp h with ⟨x, hx, hmatch⟩
  have hmatch' : x.name = q.name ∧ x.version = q.version := by
    simpa using hmatch
  unfold upsertProcessorStatus
  by_cases hc : (t.any fun y => y.name = r'.name ∧ y.version = r'.version) = true
  · rw [if_pos hc]
    refine List.any_eq_true.mpr ⟨x, List.mem_map.mpr ⟨x, hx, ?_⟩, by
      simpa using hmatch'⟩
    rw [if_neg]
    intro hm
    exact hne ⟨by rw [← hm.1, hmatch'.1], by rw [← hm.2, hmatch'.2]⟩
  · rw [if_neg hc]
    exact List.any_eq_true.mpr ⟨x, List.mem_append_left _ hx, hmatch⟩

/-- A single upsert with a different key preserves the uniqueness-of-value
property of a key. -/
theorem upsert_preserve_match_eq (t : ProcessorStatusTable)
    (q r' : ProcessorStatusModel)
    (hne : ¬(r'.name = q.name ∧ r'.version = q.version))
    (h : ∀ x ∈ t, x.name = q.name → x.version = q.version → x = q) :
    ∀ x ∈ upsertProcessorStatus t r', x.name = q.name →
      x.version = q.version → x = q := by
  unfold upsertProcessorStatus
  by_cases hc : (t.any fun y => y.name = r'.name ∧ y.version = r'.version) = true
  · rw [if_pos hc]
    intro x hx hn hv
    rcases List.mem_map.mp hx with ⟨y, hy, hfy⟩
    by_cases hm : y.name = r'.name ∧ y.version = r'.version
    · rw [if_pos hm] at hfy
      subst hfy
      exact absurd ⟨hn, hv⟩ hne
    · rw [if_neg hm] at hfy
      subst hfy
      exact h y hy hn hv
  · rw [if_neg hc]
    intro x hx hn hv
    rcases List.mem_append.mp hx with hx | hx
    · exact h x hx hn hv
    · have : x = r' := by simpa using hx
      subst this
      exact absurd ⟨hn, hv⟩ hne

/-- Upserting a row that is already present with the same value is a no-op. -/
theorem upsert_noop (t : ProcessorStatusTable) (r : ProcessorStatusModel)
    (hany : (t.any fun x => x.name = r.name ∧ x.version = r.version) = true)
    (heq : ∀ x ∈ t, x.name = r.name → x.version = r.version → x = r) :
    upsertProcessorStatus t r = t := by
  unfold upsertProcessorStatus
  rw [if_pos hany]
  have : ∀ x ∈ t,
      (if x.name = r.name ∧ x.version = r.version then r else x) = x := by
    intro x hx
    by_cases hm : x.name = r.name ∧ x.version = r.version
    · rw [if_pos hm]; exact (heq x hx hm.1 hm.2).symm
    · rw [if_neg hm]
  calc t.map (fun x =>
        if x.name = r.name ∧ x.version = r.version then r else x)
      = t.map id := List.map_congr_left this
    _ = t := List.map_id t

/-- A sequence of upserts whose keys all differ from `q`'s preserves both the
presence and the uniqueness-of-value property of `q`. -/
theorem upsertRows_preserve (rows : List ProcessorStatusModel)
    (q : ProcessorStatusModel)
    (hall : ∀ r' ∈ rows, ¬(r'.name = q.name ∧ r'.version = q.version)) :
    ∀ t : ProcessorStatusTable,
      ((t.any fun x => x.name = q.name ∧ x.version = q.version) = true ∧
        ∀ x ∈ t, x.name = q.name → x.version = q.version → x = q) →
      ((upsertProcessorStatusRows t rows).any fun x =>
          x.name = q.name ∧ x.version = q.version) = true ∧
        ∀ x ∈ upsertProcessorStatusRows t rows, x.name = q.name →
          x.version = q.version → x = q := by
  induction rows with
  | nil => intro t h; exact h
  | cons a rest ih =>
      intro t h
      have ha : ¬(a.name = q.name ∧ a.version = q.version) :=
        hall a (List.mem_cons_self a rest)
      have step :
          ((upsertProcessorStatus t a).any fun x =>
            x.name = q.name ∧ x.version = q.version) = true ∧
          ∀ x ∈ upsertProcessorStatus t a, x.name = q.name →
            x.version = q.version → x = q :=
        ⟨upsert_preserve_any t q a ha h.1,
         upsert_preserve_match_eq t q a ha h.2⟩
      exact ih (fun r' hr' => hall r' (List.mem_cons_of_mem a hr')) _ step

/-- After upserting a key-distinct row list, every upserted row is present and
is the unique value at its key. -/
theorem upsertRows_establishes (rows : List ProcessorStatusModel)
    (hd : rows.Pairwise fun a b => ¬(b.name = a.name ∧ b.version = a.version)) :
    ∀ (t : ProcessorStatusTable) (r : ProcessorStatusModel), r ∈ rows →
      ((upsertProcessorStatusRows t rows).any fun x =>
          x.name = r.name ∧ x.version = r.version) = true ∧
        ∀ x ∈ upsertProcessorStatusRows t rows, x.name = r.name →
          x.version = r.version → x = r := by
  induction rows with
  | nil => intro t r h; cases h
  | cons a rest ih =>
      intro t r h
      rcases List.pairwise_cons.mp hd with ⟨hhead, htail⟩
      rcases List.mem_cons.mp h with rfl | hr
      · exact upsertRows_preserve rest r hhead (upsertProcessorStatus t r)
          ⟨upsert_self_present t r, upsert_match_eq t r⟩
      · exact ih htail (upsertProcessorStatus t a) r hr

/-- Upserting rows that are all already present with the same values is a
no-op. -/
theorem upsertRows_noop (rows : List ProcessorStatusModel) :
    ∀ t : ProcessorStatusTable,
      (∀ r ∈ rows,
        ((t.any fun x => x.name = r.name ∧ x.version = r.version) = true ∧
          ∀ x ∈ t, x.name = r.name → x.version = r.version → x = r)) →
      upsertProcessorStatusRows t rows = t := by
  induction rows with
  | nil => intro t _; rfl
  | cons a rest ih =>
      intro t h
      have ha := h a (List.mem_cons_self a rest)
      show upsertProcessorStatusRows (upsertProcessorStatus t a) rest = t
      rw [upsert_noop t a ha.1 ha.2]
      exact ih t fun r hr => h r (List.mem_cons_of_mem a hr)

/-- Upserting a key-distinct row list twice equals upserting it once. -/
theorem upsertRows_idem (rows : List ProcessorStatusModel)
    (hd : rows.Pairwise fun a b => ¬(b.name = a.name ∧ b.version = a.version))
    (t : ProcessorStatusTable) :
    upsertProcessorStatusRows (upsertProcessorStatusRows t rows) rows =
      upsertProcessorStatusRows t rows :=
  upsertRows_noop rows _ fun r hr => upsertRows_establishes rows hd t r hr

/-- The started (and success) row lists built by
`ProcessorStatusModel.from_versions` have pairwise-distinct keys. -/
theorem from_versions_pairwise (name : String) (s e : Nat) (b : Bool)
    (d : Option String) :
    (ProcessorStatusModel.from_versions name s e b d).Pairwise
      fun a b' => ¬(b'.name = a.name ∧ b'.version = a.version) := by
  unfold ProcessorStatusModel.from_versions
  rw [List.pairwise_map]
  refine List.Pairwise.imp ?_ (List.pairwise_lt_range (e + 1 - s))
  intro i j hij
  simp only [not_and]
  intro _
  omega

/-- C4 (amended): invoking the default processor's processing path twice on
the same non-empty transaction list leaves exactly the database of invoking
it once — every row family and the `processor_statuses` table included.  The
status rows written by the path are the started rows
`(name, v, success=false, details=null)`; no `success=true` row is written,
because the success upsert's future is dropped without being awaited. -/
theorem processingPathIdempotent (name : String) (first : RawTransaction)
    (rest : List RawTransaction) (d : DbState) :
    runDb name (first :: rest) (runDb name (first :: rest) d) =
      runDb name (first :: rest) d ∧
    (runDb name (first :: rest) d).processor_statuses =
      upsertProcessorStatusRows d.processor_statuses
        (ProcessorStatusModel.from_versions name first.version
          (rest.getLastD first).version false none) := by
  obtain ⟨dt, du, dbm, de, dw, dp⟩ := d
  constructor
  · unfold runDb
    simp only [process_transactions_with_status_allOk, commitFamilies]
    simp only [DbState.mk.injEq]
    refine ⟨?_, ?_, ?_, ?_, ?_, ?_⟩
    · exact insertDN_idem TransactionModel.sameKey transactionSameKeyRefl _ _
    · exact insertDN_idem UserTransactionModel.sameKey
        userTransactionSameKeyRefl _ _
    · exact insertDN_idem BlockMetadataTransactionModel.sameKey
        blockMetadataSameKeyRefl _ _
    · exact insertDN_idem EventModel.sameKey eventSameKeyRefl _ _
    · exact insertDN_idem WriteSetChangeModel.sameKey
        writeSetChangeSameKeyRefl _ _
    · exact upsertRows_idem _ (from_versions_pairwise name first.version
        (rest.getLastD first).version false none) _
  · unfold runDb
    simp only [process_transactions_with_status_allOk, commitFamilies]

/-! ## Lemmas: trace ordering -/

/-- In a trace made of the started-status events for `v0..=vL` followed by
arbitrary non-status events, every version of the range has its started event
strictly before every row event for it, and any `success=true` status event
(there are none) is preceded by a started event. -/
theorem started_prefix_ordering (name : String) (v0 vL v : Nat)
    (R : List TraceEv)
    (hR : ∀ x ∈ R, ∀ n' v' b dd, x ≠ TraceEv.statusUpsert n' v' b dd)
    (h1 : v0 ≤ v) (h2 : v ≤ vL) :
    (∃ i : Nat,
      ((ProcessorStatusModel.from_versions name v0 vL false none).map
          (fun r => TraceEv.statusUpsert r.name r.version r.success r.details)
        ++ R)[i]? = some (TraceEv.statusUpsert name v false none) ∧
      ∀ (j : Nat) (fam : RowFamily),
        ((ProcessorStatusModel.from_versions name v0 vL false none).map
            (fun r => TraceEv.statusUpsert r.name r.version r.success
              r.details)
          ++ R)[j]? = some (TraceEv.rowInsert fam v) → i < j) ∧
    ∀ (j : Nat) (n' : String) (v' : Nat) (d' : Option String),
      ((ProcessorStatusModel.from_versions name v0 vL false none).map
          (fun r => TraceEv.statusUpsert r.name r.version r.success r.details)
        ++ R)[j]? = some (TraceEv.statusUpsert n' v' true d') →
      ∃ i' : Nat, i' < j ∧
        ((ProcessorStatusModel.from_versions name v0 vL false none).map
            (fun r => TraceEv.statusUpsert r.name r.version r.success
              r.details)
          ++ R)[i']? = some (TraceEv.statusUpsert n' v' false none) := by
  set S := (ProcessorStatusModel.from_versions name v0 vL false none).map
    (fun r => TraceEv.statusUpsert r.name r.version r.success r.details)
    with hSdef
  have hlen : S.length = vL + 1 - v0 := by
    rw [hSdef]; simp [ProcessorStatusModel.from_versions]
  have hget : ∀ i, i < vL + 1 - v0 →
      S[i]? = some (TraceEv.statusUpsert name (v0 + i) false none) := by
    intro i hi
    rw [hSdef]
    rw [List.getElem?_map]
    unfold ProcessorStatusModel.from_versions
    rw [List.getElem?_map, List.getElem?_range hi]
    rfl
  constructor
  · refine ⟨v - v0, ?_, ?_⟩
    · rw [List.getElem?_append_left (by omega)]
      rw [hget (v - v0) (by omega)]
      congr 2
      omega
    · intro j fam hj
      by_cases hj' : j < S.length
      · rw [List.getElem?_append_left hj'] at hj
        rw [hget j (by omega)] at hj
        simp at hj
      · omega
  · intro j n' v' d' hj
    have hmem : TraceEv.statusUpsert n' v' true d' ∈ S ++ R :=
      List.getElem?_mem hj
    rcases List.mem_append.mp hmem with hm | hm
    · rw [hSdef] at hm
      rcases List.mem_map.mp hm with ⟨r, hr, heq⟩
      unfold ProcessorStatusModel.from_versions at hr
      rcases List.mem_map.mp hr with ⟨i, _, rfl⟩
      simp at heq
    · exact absurd rfl (hR _ hm n' v' true d')

/-- C6: within one processor run, the started row `(name, v, success=false,
details=null)` is written strictly before any row-family insert for `v` is
attempted, for every `v` of the processed range; and every status upsert that
writes `success=true` (there are none in the trace, since the success-update
future is dropped) is preceded by a started upsert. -/
theorem startedBeforeRowInserts (d : DbState) (name : String)
    (first : RawTransaction) (rest : List RawTransaction) (v : Nat)
    (h1 : first.version ≤ v) (h2 : v ≤ (rest.getLastD first).version) :
    (∃ i : Nat,
      (process_transactions_with_status allOk name (first :: rest)
          { db := d, trace := [], stmt := 0 }).2.trace[i]? =
        some (TraceEv.statusUpsert name v false none) ∧
      ∀ (j : Nat) (fam : RowFamily),
        (process_transactions_with_status allOk name (first :: rest)
            { db := d, trace := [], stmt := 0 }).2.trace[j]? =
          some (TraceEv.rowInsert fam v) → i < j) ∧
    ∀ (j : Nat) (n' : String) (v' : Nat) (d' : Option String),
      (process_transactions_with_status allOk name (first :: rest)
          { db := d, trace := [], stmt := 0 }).2.trace[j]? =
        some (TraceEv.statusUpsert n' v' true d') →
      ∃ i' : Nat, i' < j ∧
        (process_transactions_with_status allOk name (first :: rest)
            { db := d, trace := [], stmt := 0 }).2.trace[i']? =
          some (TraceEv.statusUpsert n' v' false none) := by
  have hR : ∀ x ∈
      ((first :: rest).map TransactionModel.from_raw).map
        (fun r => TraceEv.rowInsert RowFamily.transactions r.version)
      ++ (((first :: rest).filterMap UserTransactionModel.from_raw).map
        (fun r => TraceEv.rowInsert RowFamily.user_transactions r.version)
      ++ (((first :: rest).filterMap
            BlockMetadataTransactionModel.from_raw).map
        (fun r => TraceEv.rowInsert RowFamily.block_metadata_transactions
          r.version)
      ++ ((((first :: rest).map EventModel.from_raw).flatten).map
        (fun r => TraceEv.rowInsert RowFamily.events r.transaction_version)
      ++ (((first :: rest).map WriteSetChangeModel.from_raw).flatten).map
        (fun r => TraceEv.rowInsert RowFamily.write_set_changes
          r.transaction_version)))),
      ∀ (n' : String) (v' : Nat) (b : Bool) (dd : Option String),
        x ≠ TraceEv.statusUpsert n' v' b dd := by
    intro x hx n' v' b dd
    rintro rfl
    simp [List.mem_append, List.mem_map] at hx
  have hmain := started_prefix_ordering name first.version
    (rest.getLastD first).version v _ hR h1 h2
  simpa only [process_transactions_with_status_allOk, List.nil_append,
    List.append_assoc] using hmain

/-- Witness for C6: the ordering holds on the concrete run of `[sampleTxn]`
at version 0, by the theorem applied there. -/
theorem startedBeforeRowInserts_witness :
    sampleTxn.version ≤ 0 ∧ 0 ≤ (List.getLastD [] sampleTxn).version ∧
    ((∃ i : Nat,
      (process_transactions_with_status allOk "default_processor"
          [sampleTxn] { db := emptyDb, trace := [], stmt := 0 }).2.trace[i]? =
        some (TraceEv.statusUpsert "default_processor" 0 false none) ∧
      ∀ (j : Nat) (fam : RowFamily),
        (process_transactions_with_status allOk "default_processor"
            [sampleTxn]
            { db := emptyDb, trace := [], stmt := 0 }).2.trace[j]? =
          some (TraceEv.rowInsert fam 0) → i < j) ∧
    ∀ (j : Nat) (n' : String) (v' : Nat) (d' : Option String),
      (process_transactions_with_status allOk "default_processor"
          [sampleTxn] { db := emptyDb, trace := [], stmt := 0 }).2.trace[j]? =
        some (TraceEv.statusUpsert n' v' true d') →
      ∃ i' : Nat, i' < j ∧
        (process_transactions_with_status allOk "default_processor"
            [sampleTxn]
            { db := emptyDb, trace := [], stmt := 0 }).2.trace[i']? =
          some (TraceEv.statusUpsert n' v' false none)) :=
  ⟨by decide, by decide,
   startedBeforeRowInserts emptyDb "default_processor" sampleTxn [] 0
     (by decide) (by decide)⟩

/-- If the `transactions` insert returns ok under any oracle, the resulting
table is the full insert. -/
theorem insert_transactions_ok_table (oracle : Nat → Bool)
    (txns : List TransactionModel) (table : List TransactionModel)
    (tr : List TraceEv) (stmt : Nat) (t' : List TransactionModel)
    (tr' : List TraceEv) (s' : Nat)
    (h : insert_transactions oracle txns table tr stmt =
      POutcome.ok (t', tr', s')) :
    t' = insertOnConflictDoNothing TransactionModel.sameKey table txns := by
  unfold insert_transactions at h
  have := execChunkedInsert_ok_table oracle TransactionModel.sameKey
    RowFamily.transactions TransactionModel.version txns _ _ _ _ _ _ _ h
  rwa [get_chunks_slices_join] at this

/-- If the `user_transactions` insert returns ok, the resulting table is the
full insert. -/
theorem insert_user_transactions_ok_table (oracle : Nat → Bool)
    (rows : List UserTransactionModel) (table : List UserTransactionModel)
    (tr : List TraceEv) (stmt : Nat) (t' : List UserTransactionModel)
    (tr' : List TraceEv) (s' : Nat)
    (h : insert_user_transactions oracle rows table tr stmt =
      POutcome.ok (t', tr', s')) :
    t' = insertOnConflictDoNothing UserTransactionModel.sameKey table rows := by
  unfold insert_user_transactions at h
  have := execChunkedInsert_ok_table oracle UserTransactionModel.sameKey
    RowFamily.user_transactions UserTransactionModel.version rows _ _ _ _ _ _ _
    h
  rwa [get_chunks_slices_join] at this

/-- If the `block_metadata_transactions` insert returns ok, the resulting
table is the full insert. -/
theorem insert_block_metadata_transactions_ok_table (oracle : Nat → Bool)
    (rows : List BlockMetadataTransactionModel)
    (table : List BlockMetadataTransactionModel) (tr : List TraceEv)
    (stmt : Nat) (t' : List BlockMetadataTransactionModel)
    (tr' : List TraceEv) (s' : Nat)
    (h : insert_block_metadata_transactions oracle rows table tr stmt =
      POutcome.ok (t', tr', s')) :
    t' = insertOnConflictDoNothing BlockMetadataTransactionModel.sameKey table
      rows := by
  unfold insert_block_metadata_transactions at h
  have := execChunkedInsert_ok_table oracle
    BlockMetadataTransactionModel.sameKey
    RowFamily.block_metadata_transactions
    BlockMetadataTransactionModel.version rows _ _ _ _ _ _ _ h
  rwa [get_chunks_slices_join] at this

/-- If the `events` insert returns ok, the resulting table is the full
insert. -/
theorem insert_events_ok_table (oracle : Nat → Bool) (rows : List EventModel)
    (table : List EventModel) (tr : List TraceEv) (stmt : Nat)
    (t' : List EventModel) (tr' : List TraceEv) (s' : Nat)
    (h : insert_events oracle rows table tr stmt = POutcome.ok (t', tr', s')) :
    t' = insertOnConflictDoNothing EventModel.sameKey table rows := by
  unfold insert_events at h
  have := execChunkedInsert_ok_table oracle EventModel.sameKey
    RowFamily.events EventModel.transaction_version rows _ _ _ _ _ _ _ h
  rwa [get_chunks_slices_join] at this

/-- If the `write_set_changes` insert returns ok, the resulting table is the
full insert. -/
theorem insert_write_set_changes_ok_table (oracle : Nat → Bool)
    (rows : List WriteSetChangeModel) (table : List WriteSetChangeModel)
    (tr : List TraceEv) (stmt : Nat) (t' : List WriteSetChangeModel)
    (tr' : List TraceEv) (s' : Nat)
    (h : insert_write_set_changes oracle rows table tr stmt =
      POutcome.ok (t', tr', s')) :
    t' = insertOnConflictDoNothing WriteSetChangeModel.sameKey table rows := by
  unfold insert_write_set_changes at h
  have := execChunkedInsert_ok_table oracle WriteSetChangeModel.sameKey
    RowFamily.write_set_changes WriteSetChangeModel.transaction_version rows
    _ _ _ _ _ _ _ h
  rwa [get_chunks_slices_join] at this

/-- If the backend transaction of `insert_to_db` commits (returns `Ok`), the
durable database gains exactly the five row-family inserts. -/
theorem insert_to_db_ok_commits (oracle : Nat → Bool)
    (txns : List TransactionModel) (user_txns : List UserTransactionModel)
    (bm_txns : List BlockMetadataTransactionModel) (events : List EventModel)
    (wscs : List WriteSetChangeModel) (st : ExecState) (st' : ExecState)
    (h : insert_to_db oracle txns user_txns bm_txns events wscs st =
      (DbTxResult.ok, st')) :
    st'.db = commitFamilies st.db txns user_txns bm_txns events wscs := by
  unfold insert_to_db at h
  by_cases hb : oracle st.stmt
  · rw [if_pos hb] at h
    rcases h1 : insert_transactions oracle txns st.db.transactions st.trace
        (st.stmt + 1) with ⟨t1, tr1, s1⟩ | m
    · rw [h1] at h
      dsimp only at h
      rcases h2 : insert_user_transactions oracle user_txns
          st.db.user_transactions tr1 s1 with ⟨t2, tr2, s2⟩ | m
      · rw [h2] at h
        dsimp only at h
        rcases h3 : insert_block_metadata_transactions oracle bm_txns
            st.db.block_metadata_transactions tr2 s2 with ⟨t3, tr3, s3⟩ | m
        · rw [h3] at h
          dsimp only at h
          rcases h4 : insert_events oracle events st.db.events tr3 s3 with
            ⟨t4, tr4, s4⟩ | m
          · rw [h4] at h
            dsimp only at h
            rcases h5 : insert_write_set_changes oracle wscs
                st.db.write_set_changes tr4 s4 with ⟨t5, tr5, s5⟩ | m
            · rw [h5] at h
              dsimp only at h
              by_cases hc : oracle s5
              · rw [if_pos hc] at h
                simp only [Prod.mk.injEq] at h
                rw [← h.2]
                simp only [commitFamilies]
                rw [insert_transactions_ok_table oracle txns _ _ _ _ _ _ h1,
                  insert_user_transactions_ok_table oracle user_txns _ _ _ _ _
                    _ h2,
                  insert_block_metadata_transactions_ok_table oracle bm_txns
                    _ _ _ _ _ _ h3,
                  insert_events_ok_table oracle events _ _ _ _ _ _ h4,
                  insert_write_set_changes_ok_table oracle wscs _ _ _ _ _ _ h5]
              · rw [if_neg hc] at h
                simp at h
            · rw [h5] at h
              simp at h
          · rw [h4] at h
            simp at h
        · rw [h3] at h
          simp at h
      · rw [h2] at h
        simp at h
    · rw [h1] at h
      simp at h
  · rw [if_neg hb] at h
    simp at h

/-- If the backend transaction of `insert_to_db` does not commit (it returns
an error or panics mid-transaction), the durable database is unchanged: the
whole range is rolled back. -/
theorem insert_to_db_nonok_rollback (oracle : Nat → Bool)
    (txns : List TransactionModel) (user_txns : List UserTransactionModel)
    (bm_txns : List BlockMetadataTransactionModel) (events : List EventModel)
    (wscs : List WriteSetChangeModel) (st : ExecState) (r : DbTxResult)
    (st' : ExecState)
    (h : insert_to_db oracle txns user_txns bm_txns events wscs st = (r, st'))
    (hr : r ≠ DbTxResult.ok) :
    st'.db = st.db := by
  unfold insert_to_db at h
  by_cases hb : oracle st.stmt
  · rw [if_pos hb] at h
    rcases h1 : insert_transactions oracle txns st.db.transactions st.trace
        (st.stmt + 1) with ⟨t1, tr1, s1⟩ | m
    · rw [h1] at h
      dsimp only at h
      rcases h2 : insert_user_transactions oracle user_txns
          st.db.user_transactions tr1 s1 with ⟨t2, tr2, s2⟩ | m
      · rw [h2] at h
        dsimp only at h
        rcases h3 : insert_block_metadata_transactions oracle bm_txns
            st.db.block_metadata_transactions tr2 s2 with ⟨t3, tr3, s3⟩ | m
        · rw [h3] at h
          dsimp only at h
          rcases h4 : insert_events oracle events st.db.events tr3 s3 with
            ⟨t4, tr4, s4⟩ | m
          · rw [h4] at h
            dsimp only at h
            rcases h5 : insert_write_set_changes oracle wscs
                st.db.write_set_changes tr4 s4 with ⟨t5, tr5, s5⟩ | m
            · rw [h5] at h
              dsimp only at h
              by_cases hc : oracle s5
              · rw [if_pos hc] at h
                simp only [Prod.mk.injEq] at h
                exact absurd h.1.symm hr
              · rw [if_neg hc] at h
                simp only [Prod.mk.injEq] at h
                rw [← h.2]
            · rw [h5] at h
              dsimp only at h
              simp only [Prod.mk.injEq] at h
              rw [← h.2]
          · rw [h4] at h
            dsimp only at h
            simp only [Prod.mk.injEq] at h
            rw [← h.2]
        · rw [h3] at h
          dsimp only at h
          simp only [Prod.mk.injEq] at h
          rw [← h.2]
      · rw [h2] at h
        dsimp only at h
        simp only [Prod.mk.injEq] at h
        rw [← h.2]
    · rw [h1] at h
      dsimp only at h
      simp only [Prod.mk.injEq] at h
      rw [← h.2]
  · rw [if_neg hb] at h
    simp only [Prod.mk.injEq] at h
    rw [← h.2]

/-- `insert_to_db` never writes the status table: in every outcome the
durable `processor_statuses` is unchanged. -/
theorem insert_to_db_keeps_statuses (oracle : Nat → Bool)
    (txns : List TransactionModel) (user_txns : List UserTransactionModel)
    (bm_txns : List BlockMetadataTransactionModel) (events : List EventModel)
    (wscs : List WriteSetChangeModel) (st : ExecState) (r : DbTxResult)
    (st' : ExecState)
    (h : insert_to_db oracle txns user_txns bm_txns events wscs st =
      (r, st')) :
    st'.db.processor_statuses = st.db.processor_statuses := by
  by_cases hr : r = DbTxResult.ok
  · subst hr
    rw [insert_to_db_ok_commits oracle txns user_txns bm_txns events wscs st
      st' h]
    rfl
  · rw [insert_to_db_nonok_rollback oracle txns user_txns bm_txns events wscs
      st r st' h hr]

/-- C2 (amended): the five row-family inserts of a range commit together in
one durable backend transaction — on `Ok` all five inserts are durable, on
any other outcome none are — but the processor-status success transition is
NOT part of that transaction: `insert_to_db` never changes
`processor_statuses`, and a successful `process_transactions_with_status` run
leaves the status table holding only the started upserts (`success=false`);
the `success=true` transition is never committed, so durable states exist
with row-family rows committed and the status not `success=true`. -/
theorem rowFamiliesAtomicStatusSeparate :
    (∀ (oracle : Nat → Bool) (txns : List TransactionModel)
      (user_txns : List UserTransactionModel)
      (bm_txns : List BlockMetadataTransactionModel)
      (events : List EventModel) (wscs : List WriteSetChangeModel)
      (st st' : ExecState),
      insert_to_db oracle txns user_txns bm_txns events wscs st =
        (DbTxResult.ok, st') →
      st'.db = commitFamilies st.db txns user_txns bm_txns events wscs) ∧
    (∀ (oracle : Nat → Bool) (txns : List TransactionModel)
      (user_txns : List UserTransactionModel)
      (bm_txns : List BlockMetadataTransactionModel)
      (events : List EventModel) (wscs : List WriteSetChangeModel)
      (st : ExecState) (r : DbTxResult) (st' : ExecState),
      insert_to_db oracle txns user_txns bm_txns events wscs st = (r, st') →
      r ≠ DbTxResult.ok → st'.db = st.db) ∧
    (∀ (oracle : Nat → Bool) (txns : List TransactionModel)
      (user_txns : List UserTransactionModel)
      (bm_txns : List BlockMetadataTransactionModel)
      (events : List EventModel) (wscs : List WriteSetChangeModel)
      (st : ExecState) (r : DbTxResult) (st' : ExecState),
      insert_to_db oracle txns user_txns bm_txns events wscs st = (r, st') →
      st'.db.processor_statuses = st.db.processor_statuses) ∧
    (∀ (name : String) (first : RawTransaction) (rest : List RawTransaction)
      (st : ExecState),
      (process_transactions_with_status allOk name (first :: rest)
        st).2.db.processor_statuses =
        upsertProcessorStatusRows st.db.processor_statuses
          (ProcessorStatusModel.from_versions name first.version
            (rest.getLastD first).version false none)) := by
  refine ⟨?_, ?_, ?_, ?_⟩
  · intro oracle txns u bm ev wsc st st' h
    exact insert_to_db_ok_commits oracle txns u bm ev wsc st st' h
  · intro oracle txns u bm ev wsc st r st' h hr
    exact insert_to_db_nonok_rollback oracle txns u bm ev wsc st r st' h hr
  · intro oracle txns u bm ev wsc st r st' h
    exact insert_to_db_keeps_statuses oracle txns u bm ev wsc st r st' h
  · intro name first rest st
    simp only [process_transactions_with_status_allOk, commitFamilies]

/-- Witness for C2: the atomic-commit conjunct applied at a concrete
transaction from the empty database. -/
theorem rowFamiliesAtomicStatusSeparate_witness :
    (insert_to_db allOk [TransactionModel.from_raw sampleTxn] [] [] [] []
      initState).2.db =
      commitFamilies initState.db [TransactionModel.from_raw sampleTxn]
        [] [] [] [] :=
  rowFamiliesAtomicStatusSeparate.1 allOk [TransactionModel.from_raw sampleTxn]
    [] [] [] [] initState
    (insert_to_db allOk [TransactionModel.from_raw sampleTxn] [] [] [] []
      initState).2 (by decide)

/-- C3 (amended): a SQL error raised during a row-family insert makes
`process_transactions` panic (through the insert helper's `.expect`) with the
whole range rolled back — no row of the range is durable — rather than
returning an error; `process_transactions` returns a `TransactionCommitError`
carrying the wrapped cause, `start_version`, `end_version` and the processor
name exactly for errors surfaced by the backend transaction itself
(begin/commit failures), again with the range rolled back. -/
theorem processTransactionsErrorBehavior :
    (∀ (oracle : Nat → Bool) (name : String) (T : List RawTransaction)
      (s e : Nat) (st : ExecState) (m : String) (st' : ExecState),
      process_transactions oracle name T s e st = (ProcRes.panicked m, st') →
      st'.db = st.db) ∧
    (∀ (oracle : Nat → Bool) (name : String) (T : List RawTransaction)
      (s e : Nat) (st : ExecState) (er : TransactionProcessingError)
      (st' : ExecState),
      process_transactions oracle name T s e st = (ProcRes.err er, st') →
      st'.db = st.db ∧ ∃ cause : Nat,
        er = TransactionProcessingError.transactionCommitError cause s e
          name) := by
  constructor
  · intro oracle name T s e st m st' h
    simp only [process_transactions] at h
    rcases hres : insert_to_db oracle
        (TransactionModel.from_transactions T).1
        (TransactionModel.from_transactions T).2.1
        (TransactionModel.from_transactions T).2.2.1
        (TransactionModel.from_transactions T).2.2.2.1
        (TransactionModel.from_transactions T).2.2.2.2 st with ⟨r, st''⟩
    rw [hres] at h
    rcases r with _ | er | mm
    · simp at h
    · simp at h
    · simp only [Prod.mk.injEq, ProcRes.panicked.injEq] at h
      rw [← h.2]
      exact insert_to_db_nonok_rollback oracle _ _ _ _ _ st _ st'' hres
        (by simp)
  · intro oracle name T s e st er st' h
    simp only [process_transactions] at h
    rcases hres : insert_to_db oracle
        (TransactionModel.from_transactions T).1
        (TransactionModel.from_transactions T).2.1
        (TransactionModel.from_transactions T).2.2.1
        (TransactionModel.from_transactions T).2.2.2.1
        (TransactionModel.from_transactions T).2.2.2.2 st with ⟨r, st''⟩
    rw [hres] at h
    rcases r with _ | cause | mm
    · simp at h
    · simp only [Prod.mk.injEq, ProcRes.err.injEq] at h
      refine ⟨?_, cause, h.1.symm⟩
      rw [← h.2]
      exact insert_to_db_nonok_rollback oracle _ _ _ _ _ st _ st'' hres
        (by simp)
    · simp at h

/-- Witness for C3: the panic conjunct applied at the concrete run with a SQL
error injected into the `events` insert. -/
theorem processTransactionsErrorBehavior_witness :
    (process_transactions failAtStmt3 "process_transactions" [sampleTxn] 0 0
      initState).2.db = initState.db :=
  processTransactionsErrorBehavior.1 failAtStmt3 "process_transactions"
    [sampleTxn] 0 0 initState "Error inserting row into database"
    (process_transactions failAtStmt3 "process_transactions" [sampleTxn] 0 0
      initState).2 (by decide)
